import Mathlib

set_option maxRecDepth 100000

/-!
# Verification of the grafsign manifest builder

A shallow embedding of `src/grafsign.ts`: the directory walker `walk`, the
manifest builder `buildManifest`, the signing request `signManifest` and the
entry point `sign`, together with theorems about the repository's
specification claims.

Bytes are modelled as `Nat` values below 256, file contents as `List Nat`,
and 32-bit machine arithmetic as `Nat` arithmetic reduced modulo `2 ^ 32`.
-/

/-! ## SHA-256 (the `crypto.createHash('sha256')` collaborator)

`buildManifest` digests each file with Node's SHA-256 and hex-encodes the
result with `digest('hex')` (lowercase).  The algorithm is embedded here in
full over byte lists so that digests are computable facts. -/

/-- Truncate to a 32-bit word. -/
def w32 (n : Nat) : Nat := n % 4294967296

/-- Right rotation of a 32-bit word by `n` places. -/
def rotr (n x : Nat) : Nat := w32 ((x >>> n) ||| (x <<< (32 - n)))

/-- SHA-256 `Ch` function. -/
def shaCh (x y z : Nat) : Nat := (x &&& y) ^^^ ((w32 (4294967295 - x)) &&& z)

/-- SHA-256 `Maj` function. -/
def shaMaj (x y z : Nat) : Nat := (x &&& y) ^^^ (x &&& z) ^^^ (y &&& z)

/-- SHA-256 big sigma 0. -/
def bsig0 (x : Nat) : Nat := rotr 2 x ^^^ rotr 13 x ^^^ rotr 22 x

/-- SHA-256 big sigma 1. -/
def bsig1 (x : Nat) : Nat := rotr 6 x ^^^ rotr 11 x ^^^ rotr 25 x

/-- SHA-256 small sigma 0. -/
def ssig0 (x : Nat) : Nat := rotr 7 x ^^^ rotr 18 x ^^^ (x >>> 3)

/-- SHA-256 small sigma 1. -/
def ssig1 (x : Nat) : Nat := rotr 17 x ^^^ rotr 19 x ^^^ (x >>> 10)

/-- The 64 SHA-256 round constants. -/
def K256 : List Nat :=
  [1116352408, 1899447441, 3049323471, 3921009573, 961987163,
   1508970993, 2453635748, 2870763221, 3624381080, 310598401,
   607225278, 1426881987, 1925078388, 2162078206, 2614888103,
   3248222580, 3835390401, 4022224774, 264347078, 604807628,
   770255983, 1249150122, 1555081692, 1996064986, 2554220882,
   2821834349, 2952996808, 3210313671, 3336571891, 3584528711,
   113926993, 338241895, 666307205, 773529912, 1294757372,
   1396182291, 1695183700, 1986661051, 2177026350, 2456956037,
   2730485921, 2820302411, 3259730800, 3345764771, 3516065817,
   3600352804, 4094571909, 275423344, 430227734, 506948616,
   659060556, 883997877, 958139571, 1322822218, 1537002063,
   1747873779, 1955562222, 2024104815, 2227730452, 2361852424,
   2428436474, 2756734187, 3204031479, 3329325298]

/-- The SHA-256 initial hash state. -/
def H256 : List Nat :=
  [1779033703, 3144134277, 1013904242, 2773480762,
   1359893119, 2600822924, 528734635, 1541459225]

/-- Extend 16 message words to the 64-entry message schedule. -/
def sha256sched (w16 : List Nat) : List Nat :=
  (List.range 64).foldl
    (fun w t =>
      if t < 16 then w
      else w ++ [w32 (ssig1 (w.getD (t - 2) 0) + w.getD (t - 7) 0 +
                      ssig0 (w.getD (t - 15) 0) + w.getD (t - 16) 0)])
    w16

/-- One round of the SHA-256 compression function on an 8-word state. -/
def shaRound (st : List Nat) (wk : Nat × Nat) : List Nat :=
  let a := st.getD 0 0
  let b := st.getD 1 0
  let c := st.getD 2 0
  let d := st.getD 3 0
  let e := st.getD 4 0
  let f := st.getD 5 0
  let g := st.getD 6 0
  let h := st.getD 7 0
  let t1 := w32 (h + bsig1 e + shaCh e f g + wk.2 + wk.1)
  let t2 := w32 (bsig0 a + shaMaj a b c)
  [w32 (t1 + t2), a, b, c, w32 (d + t1), e, f, g]

/-- SHA-256 compression of one 16-word block into the running hash state. -/
def sha256compress (h : List Nat) (block : List Nat) : List Nat :=
  let w := sha256sched block
  let out := (w.zip K256).foldl shaRound h
  (h.zip out).map (fun p => w32 (p.1 + p.2))

/-- A natural number as `k` big-endian bytes. -/
def toBE (k n : Nat) : List Nat :=
  (List.range k).map (fun i => n >>> (8 * (k - 1 - i)) % 256)

/-- SHA-256 message padding: a `0x80` byte, zeros, and the 64-bit bit length. -/
def shaPad (msg : List Nat) : List Nat :=
  let n := msg.length
  msg ++ [128] ++ List.replicate ((64 - (n + 9) % 64) % 64) 0 ++ toBE 8 (8 * n)

/-- Big-endian bytes to 32-bit words, four bytes at a time. -/
def bytesToWords : List Nat → List Nat
  | b0 :: b1 :: b2 :: b3 :: rest =>
      w32 ((b0 <<< 24) + (b1 <<< 16) + (b2 <<< 8) + b3) :: bytesToWords rest
  | _ => []

/-- Split a byte list into 64-byte chunks, with an explicit fuel argument so
that the recursion is structural. -/
def chunks64Aux : Nat → List Nat → List (List Nat)
  | 0, _ => []
  | _, [] => []
  | fuel + 1, l => l.take 64 :: chunks64Aux fuel (l.drop 64)

/-- Split a byte list into 64-byte chunks. -/
def chunks64 (l : List Nat) : List (List Nat) := chunks64Aux l.length l

/-- The SHA-256 digest of a byte list, as 32 bytes. -/
def sha256 (msg : List Nat) : List Nat :=
  let blocks := chunks64 (shaPad msg)
  let final := blocks.foldl (fun h b => sha256compress h (bytesToWords b)) H256
  final.flatMap (toBE 4)

/-- The sixteen lowercase hexadecimal digit characters. -/
def hexChar (n : Nat) : Char :=
  Char.ofNat (if n < 10 then 48 + n else 87 + n)

/-- Bytes as a lowercase hexadecimal string. -/
def hexOfBytes (bs : List Nat) : String :=
  String.mk (bs.flatMap (fun b => [hexChar (b / 16 % 16), hexChar (b % 16)]))

/-- The digest string `crypto.createHash('sha256').update(bytes).digest('hex')`
produces: the lowercase-hex SHA-256 digest of the bytes. -/
def sha256hex (msg : List Nat) : String := hexOfBytes (sha256 msg)

/-! ## JSON values and JavaScript member access

`buildManifest` evaluates `pluginJson.id` and `pluginJson.info.version` on the
value returned by `JSON.parse`.  In JavaScript, reading an absent property of
an object yields `undefined` without failing, while reading any property of
`null` or `undefined` throws a `TypeError`. -/

/-- A JavaScript value as produced by `JSON.parse`, extended with `undefined`
(the result of reading an absent property). -/
inductive JVal where
  | null : JVal
  | undefined : JVal
  | bool : Bool → JVal
  | num : Int → JVal
  | str : String → JVal
  | arr : List JVal → JVal
  | obj : List (String × JVal) → JVal

/-- The value of property `k` of `v` when the access does not throw: the
field's value for an object that has it, `undefined` otherwise. -/
def jIndex (v : JVal) (k : String) : JVal :=
  match v with
  | JVal.obj fields => (fields.lookup k).getD JVal.undefined
  | _ => JVal.undefined

/-- JavaScript member access `v.k`: throws a `TypeError` when `v` is `null` or
`undefined`, and otherwise produces `jIndex v k`. -/
def jGet (v : JVal) (k : String) : Except String JVal :=
  match v with
  | JVal.null => Except.error ("TypeError: cannot read properties of null (reading " ++ k ++ ")")
  | JVal.undefined => Except.error ("TypeError: cannot read properties of undefined (reading " ++ k ++ ")")
  | v => Except.ok (jIndex v k)

/-! ## The filesystem and collaborator environment

Directory structure under a directory path is a tree of named entries, one
constructor per `Dirent` classification used by `walk` (`isDirectory`,
`isFile`, `isSymbolicLink`, anything else).  A symbolic link carries the
canonical target path that `fs.realpath` returns for it.  The remaining
filesystem and network calls are fields of `Env`. -/

/-- A directory entry as classified by `walk`. -/
inductive Ent where
  | file : List Nat → Ent
  | dir : List (String × Ent) → Ent
  | symlink : String → Ent
  | other : Ent

/-- The classification `fs.stat` reports for an (existing) absolute path. -/
inductive StatKind where
  | file : StatKind
  | dir : StatKind
  | other : StatKind
deriving Repr, DecidableEq

/-- The field set via `manifest.signPlugin = { version: "eccentric" }`. -/
structure SignPluginField where
  version : String
deriving Repr, DecidableEq

/-- The manifest record of `grafsign.ts` (`ManifestInfo`): identity fields
read from the descriptor, the `files` digest table in insertion order, and
the optional fields merged in by `sign`.  `plugin` and `version` are `JVal`
because JavaScript stores whatever the descriptor access produced, including
`undefined`. -/
structure ManifestInfo where
  signatureType : Option String := none
  rootUrls : Option (List String) := none
  plugin : JVal
  version : JVal
  files : List (String × String)
  signPlugin : Option SignPluginField := none

/-- The collaborators of the core: current working directory, filesystem
calls, `JSON.parse`, the credential environment variables and the signing
endpoint.  `dirTree` is the `fs.opendir` view: the named-entry tree below an
absolute directory path.  `readAbs` is `fs.readFileSync` on an absolute path.
`statAbs` is `fs.stat` on a canonical path (realpath has succeeded, so the
path exists).  `respond` takes the bearer token and the request payload and
produces either a transport error or a status code and response body. -/
structure Env where
  cwd : String
  dirTree : String → Option (List (String × Ent))
  readAbs : String → Option (List Nat)
  statAbs : String → StatKind
  parseJson : List Nat → Except String JVal
  apiKey : Option String
  accessPolicyToken : Option String
  respond : String → ManifestInfo → Except String (Nat × String)

/-! ## Path model

`walk` builds entry paths with `path.posix.join` and reports them relative to
the base directory with `path.posix.relative`; `sign` resolves the content
root with `path.resolve('dist')`.  These library calls are modelled for the
shapes they are used at: joining a directory path to a plain entry name, and
taking a path relative to a base it textually extends. -/

/-- Model of `path.posix.join dir name` for a nonempty `dir` and a plain
entry name: concatenation with a forward slash. -/
def posixJoin (dir name : String) : String := dir ++ "/" ++ name

/-- Model of `path.posix.relative base p` for `p` of the form
`base ++ "/" ++ rel`: drop the base directory and the slash. -/
def posixRelative (base p : String) : String :=
  String.mk (p.data.drop (base.data.length + 1))

/-- Model of `path.resolve cwd p` for an absolute working directory and a
plain relative segment such as `'dist'`. -/
def pathResolve (cwd p : String) : String := cwd ++ "/" ++ p

/-- Model of the JavaScript string method `realPath.startsWith(baseDir)`:
a character-level prefix test. -/
def strStartsWith (s pre : String) : Bool := pre.data.isPrefixOf s.data

/-- The reserved output filename `MANIFEST_FILE`. -/
def MANIFEST_FILE : String := "MANIFEST.txt"

/-- The message of the error thrown for a symbolic link that escapes the
base directory, built exactly as in `walk`. -/
def travMsg (base rel : String) : String :=
  "symbolic link " ++ rel ++ " targets a file outside of the base directory: " ++ base

/-! ## The directory walker -/

/-- The walker of `grafsign.ts`: a depth-first traversal of the entries of
`dir`, producing the base-relative paths the generator yields, or the first
error thrown.  Directories are recursed into; regular files yield their
relative path; a symbolic link whose realpath does not start with `baseDir`
throws, and otherwise yields the link's own relative path when the resolved
target is a regular file; other entry kinds are skipped. -/
def walk (env : Env) (baseDir : String) : String → List (String × Ent) →
    Except String (List String)
  | _, [] => Except.ok []
  | dir, (name, Ent.dir sub) :: rest => do
      let subPaths ← walk env baseDir (posixJoin dir name) sub
      let restPaths ← walk env baseDir dir rest
      Except.ok (subPaths ++ restPaths)
  | dir, (name, Ent.file _) :: rest => do
      let restPaths ← walk env baseDir dir rest
      Except.ok (posixRelative baseDir (posixJoin dir name) :: restPaths)
  | dir, (name, Ent.symlink realPath) :: rest =>
      if strStartsWith realPath baseDir then do
        let restPaths ← walk env baseDir dir rest
        match env.statAbs realPath with
        | StatKind.file =>
            Except.ok (posixRelative baseDir (posixJoin dir name) :: restPaths)
        | _ => Except.ok restPaths
      else
        Except.error (travMsg baseDir (posixRelative baseDir (posixJoin dir name)))
  | dir, (_, Ent.other) :: rest => walk env baseDir dir rest

/-! ## The manifest builder -/

/-- Assignment `m[k] = v` on a JavaScript object in insertion order: an
existing key keeps its position and gets the new value, a new key is appended. -/
def recordSet (m : List (String × String)) (k v : String) : List (String × String) :=
  if m.any (fun kv => kv.1 = k) then
    m.map (fun kv => if kv.1 = k then (k, v) else kv)
  else
    m ++ [(k, v)]

/-- The hashing loop of `buildManifest`: for each walked path, skip the
reserved output filename, otherwise read the file and store its lowercase-hex
SHA-256 digest under the path.  A failing read aborts the build. -/
def hashFiles (env : Env) (dir : String) :
    List String → List (String × String) → Except String (List (String × String))
  | [], acc => Except.ok acc
  | p :: ps, acc =>
      if p = MANIFEST_FILE then hashFiles env dir ps acc
      else
        match env.readAbs (posixJoin dir p) with
        | none => Except.error ("ENOENT: no such file or directory, open " ++ posixJoin dir p)
        | some bytes => hashFiles env dir ps (recordSet acc p (sha256hex bytes))

/-- What the hashing loop stores for one walked path: nothing for the
reserved output filename, otherwise the path paired with the digest of the
bytes read from it (`none` when the read fails). -/
def hashFn (env : Env) (dir : String) (p : String) : Option (String × String) :=
  if p = MANIFEST_FILE then none
  else (env.readAbs (posixJoin dir p)).map (fun bytes => (p, sha256hex bytes))

/-- The hashing loop as a pure collection: digests in walk order, failing
when a read fails. -/
def collectHashes (env : Env) (dir : String) : List String → Option (List (String × String))
  | [] => some []
  | p :: ps =>
      if p = MANIFEST_FILE then collectHashes env dir ps
      else
        match env.readAbs (posixJoin dir p) with
        | none => none
        | some bytes => (collectHashes env dir ps).map (fun l => (p, sha256hex bytes) :: l)

/-- Model of `readFileSync` as a fallible step: a missing file throws `ENOENT`. -/
def readFileExcept (env : Env) (path : String) : Except String (List Nat) :=
  match env.readAbs path with
  | none => Except.error ("ENOENT: no such file or directory, open " ++ path)
  | some bs => Except.ok bs

/-- Model of `fs.opendir` as a fallible step: a missing directory throws `ENOENT`. -/
def opendirExcept (env : Env) (dir : String) : Except String (List (String × Ent)) :=
  match env.dirTree dir with
  | none => Except.error ("ENOENT: no such file or directory, opendir " ++ dir)
  | some es => Except.ok es

/-- The builder `buildManifest` of `grafsign.ts`: parse `plugin.json`, read `id` and
`info.version` (in the evaluation order of the record literal), walk the
content directory, and hash every yielded file except the reserved output
filename. -/
def buildManifest (env : Env) (dir : String) : Except String ManifestInfo := do
  let bytes ← readFileExcept env (posixJoin dir "plugin.json")
  let pluginJson ← env.parseJson bytes
  let pluginId ← jGet pluginJson "id"
  let pluginInfo ← jGet pluginJson "info"
  let pluginVersion ← jGet pluginInfo "version"
  let entries ← opendirExcept env dir
  let paths ← walk env dir dir entries
  let files ← hashFiles env dir paths []
  Except.ok { plugin := pluginId, version := pluginVersion, files := files }

/-! ## Signing and the entry point -/

/-- JavaScript truthiness of an optional string (an unset environment
variable or omitted parameter is `undefined`, and the empty string is falsy). -/
def truthyStr : Option String → Bool
  | none => false
  | some s => s ≠ ""

/-- The request `signManifest` of `grafsign.ts`.  The first component records the payload
of the network request actually issued (`none` when the credential check
throws before `fetch`).  The credential check requires one of the two
environment variables to be truthy; the bearer token is
`GRAFANA_ACCESS_POLICY_TOKEN ?? GRAFANA_API_KEY`.  A transport error or a
non-200 status is wrapped by the surrounding `catch` into
an `Error signing manifest` message. -/
def signManifest (env : Env) (manifest : ManifestInfo) :
    Option ManifestInfo × Except String String :=
  if !truthyStr env.apiKey && !truthyStr env.accessPolicyToken then
    (none, Except.error "You must enter a GRAFANA_API_KEY OR GRAFANA_ACCESS_POLICY_TOKEN to sign the plugin manifest")
  else
    let token := (env.accessPolicyToken <|> env.apiKey).getD ""
    (some manifest,
      match env.respond token manifest with
      | Except.error msg => Except.error ("Error signing manifest: " ++ msg)
      | Except.ok (status, body) =>
          if status = 200 then Except.ok body
          else Except.error "Error signing manifest: Error signing manifest")

/-- The observable outcome of one invocation of `sign`: the payload sent to
the signing endpoint (if a request was made), the file writes performed
(absolute path and content), and the error reported by the top-level `catch`
(if any). -/
structure SignOutcome where
  requested : Option ManifestInfo
  writes : List (String × String)
  errorReported : Option String

/-- The body of the `try` block of `sign`: build the manifest at the content
root, merge the truthy caller overrides, set `signPlugin`, and request the
signature.  The first component is the request payload actually sent. -/
def signPipeline (env : Env) (signatureType : Option String)
    (rootUrls : Option (List String)) : Option ManifestInfo × Except String String :=
  match buildManifest env (pathResolve env.cwd "dist") with
  | Except.error e => (none, Except.error e)
  | Except.ok manifest =>
      let m1 := if truthyStr signatureType then
          { manifest with signatureType := signatureType } else manifest
      let m2 := if rootUrls.isSome then { m1 with rootUrls := rootUrls } else m1
      let m3 := { m2 with signPlugin := some { version := "eccentric" } }
      signManifest env m3

/-- The entry point `sign(signatureType?, rootUrls?)`: resolve the content
root `dist`, run the pipeline, and only on success write the signed text to
`MANIFEST.txt` inside the content root (`saveManifest`).  Any error is caught
by the top-level `catch` and reported. -/
def sign (env : Env) (signatureType : Option String) (rootUrls : Option (List String)) :
    SignOutcome :=
  match signPipeline env signatureType rootUrls with
  | (req, Except.error e) => { requested := req, writes := [], errorReported := some e }
  | (req, Except.ok signed) =>
      { requested := req
        writes := [(posixJoin (pathResolve env.cwd "dist") MANIFEST_FILE, signed)]
        errorReported := none }

/-- Apply a list of file writes to a map from absolute paths to file
contents. -/
def applyWrites (fm : String → Option String) : List (String × String) →
    (String → Option String)
  | [] => fm
  | (p, c) :: rest => applyWrites (fun q => if q = p then some c else fm q) rest

/-! ## Specification-side views of a directory tree

The claims speak about the regular files reachable from the content root and
about relative paths with forward-slash separators.  These notions are
defined here structurally, as lists of path components, and related to the
string-threading `walk` by the correspondence theorems below. -/

/-- A well-formed entry name: nonempty and free of path separators. -/
def validNameB (n : String) : Bool := n ≠ "" && !(n.data.contains '/')

/-- A well-formed directory listing: every name is valid, sibling names are
distinct, and subdirectories are well-formed. -/
def wfB : List (String × Ent) → Bool
  | [] => true
  | (n, Ent.dir sub) :: rest =>
      validNameB n && !((rest.map Prod.fst).contains n) && wfB sub && wfB rest
  | (n, _) :: rest => validNameB n && !((rest.map Prod.fst).contains n) && wfB rest

/-- A listing containing only regular files and directories. -/
def regOnlyB : List (String × Ent) → Bool
  | [] => true
  | (_, Ent.file _) :: rest => regOnlyB rest
  | (_, Ent.dir sub) :: rest => regOnlyB sub && regOnlyB rest
  | _ => false

/-- No symbolic link anywhere in the listing escapes the base directory
(its canonical target starts with `base`). -/
def noEscapeB (base : String) : List (String × Ent) → Bool
  | [] => true
  | (_, Ent.dir sub) :: rest => noEscapeB base sub && noEscapeB base rest
  | (_, Ent.symlink rp) :: rest => strStartsWith rp base && noEscapeB base rest
  | _ :: rest => noEscapeB base rest

/-- Render a component path as a forward-slash separated relative path. -/
def renderPath : List String → String
  | [] => ""
  | [n] => n
  | n :: rest => n ++ "/" ++ renderPath rest

/-- The component paths the walker yields for a listing: regular files, and
symbolic links whose canonical target starts with the base directory and is
a regular file. -/
def listingPaths (env : Env) (base : String) : List (String × Ent) → List (List String)
  | [] => []
  | (n, Ent.file _) :: rest => [n] :: listingPaths env base rest
  | (n, Ent.dir sub) :: rest =>
      (listingPaths env base sub).map (fun cs => n :: cs) ++ listingPaths env base rest
  | (n, Ent.symlink rp) :: rest =>
      (if strStartsWith rp base then
        match env.statAbs rp with
        | StatKind.file => [[n]]
        | _ => []
      else []) ++ listingPaths env base rest
  | (_, Ent.other) :: rest => listingPaths env base rest

/-- The regular files reachable from a listing: component path and content. -/
def filesAt : List (String × Ent) → List (List String × List Nat)
  | [] => []
  | (n, Ent.file c) :: rest => ([n], c) :: filesAt rest
  | (n, Ent.dir sub) :: rest =>
      (filesAt sub).map (fun fc => (n :: fc.1, fc.2)) ++ filesAt rest
  | (_, _) :: rest => filesAt rest

/-- The entry at a component path in a listing, following directories. -/
def entAt : List (String × Ent) → List String → Option Ent
  | es, [n] => es.lookup n
  | es, n :: rest =>
      match es.lookup n with
      | some (Ent.dir sub) => entAt sub rest
      | _ => none
  | _, [] => none

/-- The relative path of entry `n` under the relative directory prefix `p`
(`""` denoting the base directory itself). -/
def relAt (p n : String) : String := if p = "" then n else p ++ "/" ++ n

/-- The absolute directory path at relative prefix `p` below `base`. -/
def dirAt (base p : String) : String := if p = "" then base else posixJoin base p

/-- The relative paths (in walk order) of the symbolic links below relative
prefix `p` whose canonical target does not start with the base directory. -/
def escLinksOf (base : String) (p : String) : List (String × Ent) → List String
  | [] => []
  | (n, Ent.dir sub) :: rest => escLinksOf base (relAt p n) sub ++ escLinksOf base p rest
  | (n, Ent.symlink rp) :: rest =>
      (if strStartsWith rp base then [] else [relAt p n]) ++ escLinksOf base p rest
  | _ :: rest => escLinksOf base p rest

/-! ## Concrete environments

Small closed filesystems and collaborator environments, used by the closed
instances of the theorems below.  The content root is `/work/dist`
(`path.resolve('dist')` from working directory `/work`). -/

/-- A well-formed plugin descriptor value. -/
def pjGood : JVal :=
  JVal.obj [("id", JVal.str "my-panel"), ("info", JVal.obj [("version", JVal.str "1.0.0")])]

/-- A parser that always produces the well-formed descriptor. -/
def parseGood : List Nat → Except String JVal := fun _ => Except.ok pjGood

/-- A signing endpoint that accepts everything. -/
def respond200 : String → ManifestInfo → Except String (Nat × String) :=
  fun _ _ => Except.ok (200, "SIGNED")

/-- A `stat` oracle classifying nothing as a file or directory. -/
def statNone : String → StatKind := fun _ => StatKind.other

/-- The bytes of the string `hello`. -/
def helloBytes : List Nat := [104, 101, 108, 108, 111]

/-- Scenario A: one regular file `module.js` with content `hello`. -/
def treeA : List (String × Ent) := [("module.js", Ent.file helloBytes)]

def readA : String → Option (List Nat) := fun p =>
  if p = "/work/dist/plugin.json" then some [] else
  if p = "/work/dist/module.js" then some helloBytes else none

def envA : Env :=
  { cwd := "/work"
    dirTree := fun d => if d = "/work/dist" then some treeA else none
    readAbs := readA
    statAbs := statNone
    parseJson := parseGood
    apiKey := some "key"
    accessPolicyToken := none
    respond := respond200 }

/-- A root where the reserved output file already exists from a previous run. -/
def treeB : List (String × Ent) := [("MANIFEST.txt", Ent.file [97])]

def readB : String → Option (List Nat) := fun p =>
  if p = "/work/dist/plugin.json" then some [] else
  if p = "/work/dist/MANIFEST.txt" then some [97] else none

def envB : Env :=
  { cwd := "/work"
    dirTree := fun d => if d = "/work/dist" then some treeB else none
    readAbs := readB
    statAbs := statNone
    parseJson := parseGood
    apiKey := some "key"
    accessPolicyToken := none
    respond := respond200 }

/-- Scenario B at depth two: `sub/evil` links to `/etc/passwd`. -/
def treeC : List (String × Ent) :=
  [("sub", Ent.dir [("evil", Ent.symlink "/etc/passwd")])]

def readC : String → Option (List Nat) := fun p =>
  if p = "/work/dist/plugin.json" then some [] else none

def envC : Env :=
  { cwd := "/work"
    dirTree := fun d => if d = "/work/dist" then some treeC else none
    readAbs := readC
    statAbs := statNone
    parseJson := parseGood
    apiKey := some "key"
    accessPolicyToken := none
    respond := respond200 }

/-- A `stat` oracle for the sibling-directory escape example. -/
def statEvil : String → StatKind := fun s =>
  if s = "/work/dist-evil/f" then StatKind.file else StatKind.other

def envD : Env :=
  { cwd := "/work"
    dirTree := fun _ => none
    readAbs := fun _ => none
    statAbs := statEvil
    parseJson := parseGood
    apiKey := some "key"
    accessPolicyToken := none
    respond := respond200 }

/-- A symbolic link named exactly like the reserved output file, targeting a
regular file inside the root. -/
def treeE : List (String × Ent) :=
  [("real.txt", Ent.file []), ("MANIFEST.txt", Ent.symlink "/work/dist/real.txt")]

def readE : String → Option (List Nat) := fun p =>
  if p = "/work/dist/plugin.json" then some [] else
  if p = "/work/dist/real.txt" then some [] else
  if p = "/work/dist/MANIFEST.txt" then some [] else none

def statE : String → StatKind := fun s =>
  if s = "/work/dist/real.txt" then StatKind.file else StatKind.other

def envE : Env :=
  { cwd := "/work"
    dirTree := fun d => if d = "/work/dist" then some treeE else none
    readAbs := readE
    statAbs := statE
    parseJson := parseGood
    apiKey := some "key"
    accessPolicyToken := none
    respond := respond200 }

/-- A safe inside-the-root symbolic link `link.txt` to `data.bin`. -/
def treeF : List (String × Ent) :=
  [("data.bin", Ent.file []), ("link.txt", Ent.symlink "/work/dist/data.bin")]

def readF : String → Option (List Nat) := fun p =>
  if p = "/work/dist/plugin.json" then some [] else
  if p = "/work/dist/data.bin" then some [] else
  if p = "/work/dist/link.txt" then some [] else none

def statF : String → StatKind := fun s =>
  if s = "/work/dist/data.bin" then StatKind.file else StatKind.other

def envF : Env :=
  { cwd := "/work"
    dirTree := fun d => if d = "/work/dist" then some treeF else none
    readAbs := readF
    statAbs := statF
    parseJson := parseGood
    apiKey := some "key"
    accessPolicyToken := none
    respond := respond200 }

/-- No `plugin.json` readable anywhere. -/
def env6a : Env :=
  { cwd := "/work"
    dirTree := fun d => if d = "/work/dist" then some [] else none
    readAbs := fun _ => none
    statAbs := statNone
    parseJson := parseGood
    apiKey := some "key"
    accessPolicyToken := none
    respond := respond200 }

def readEmptyRoot : String → Option (List Nat) := fun p =>
  if p = "/work/dist/plugin.json" then some [] else none

/-- A `plugin.json` that is not valid JSON. -/
def env6b : Env :=
  { cwd := "/work"
    dirTree := fun d => if d = "/work/dist" then some [] else none
    readAbs := readEmptyRoot
    statAbs := statNone
    parseJson := fun _ => Except.error "SyntaxError: Unexpected end of JSON input"
    apiKey := some "key"
    accessPolicyToken := none
    respond := respond200 }

/-- A descriptor with an `id` but no `info` member. -/
def env6c : Env :=
  { cwd := "/work"
    dirTree := fun d => if d = "/work/dist" then some [] else none
    readAbs := readEmptyRoot
    statAbs := statNone
    parseJson := fun _ => Except.ok (JVal.obj [("id", JVal.str "x")])
    apiKey := some "key"
    accessPolicyToken := none
    respond := respond200 }

/-- A descriptor with an `info` object but neither `id` nor `info.version`. -/
def envG : Env :=
  { cwd := "/work"
    dirTree := fun d => if d = "/work/dist" then some [] else none
    readAbs := readEmptyRoot
    statAbs := statNone
    parseJson := fun _ => Except.ok (JVal.obj [("info", JVal.obj [])])
    apiKey := some "key"
    accessPolicyToken := none
    respond := respond200 }

/-- An environment in which the very first stage of the build fails. -/
def envI : Env :=
  { cwd := "/work"
    dirTree := fun _ => none
    readAbs := fun _ => none
    statAbs := statNone
    parseJson := parseGood
    apiKey := none
    accessPolicyToken := none
    respond := respond200 }

/-- An empty content root with credentials and an accepting endpoint. -/
def envK : Env :=
  { cwd := "/work"
    dirTree := fun d => if d = "/work/dist" then some [] else none
    readAbs := readEmptyRoot
    statAbs := statNone
    parseJson := parseGood
    apiKey := some "key"
    accessPolicyToken := none
    respond := respond200 }

/-- Two empty regular files, in two sibling enumeration orders. -/
def treeJ1 : List (String × Ent) := [("a.txt", Ent.file []), ("b.txt", Ent.file [])]

def treeJ2 : List (String × Ent) := [("b.txt", Ent.file []), ("a.txt", Ent.file [])]

def readJ : String → Option (List Nat) := fun p =>
  if p = "/work/dist/plugin.json" then some [] else
  if p = "/work/dist/a.txt" then some [] else
  if p = "/work/dist/b.txt" then some [] else none

def envJ1 : Env :=
  { cwd := "/work"
    dirTree := fun d => if d = "/work/dist" then some treeJ1 else none
    readAbs := readJ
    statAbs := statNone
    parseJson := parseGood
    apiKey := some "key"
    accessPolicyToken := none
    respond := respond200 }

def envJ2 : Env :=
  { cwd := "/work"
    dirTree := fun d => if d = "/work/dist" then some treeJ2 else none
    readAbs := readJ
    statAbs := statNone
    parseJson := parseGood
    apiKey := some "key"
    accessPolicyToken := none
    respond := respond200 }

/-- The manifest scenario A produces. -/
def mA : ManifestInfo :=
  { plugin := JVal.str "my-panel", version := JVal.str "1.0.0",
    files := [("module.js",
      "2cf24dba5fb0a30e26e83b2ac5b9e29e1b161e5c1fa7425e73043362938b9824")] }

/-- The manifest built over `treeB`: the pre-existing output file is skipped. -/
def mB : ManifestInfo :=
  { plugin := JVal.str "my-panel", version := JVal.str "1.0.0", files := [] }

/-- The payload `sign` submits for the empty content root. -/
def mK : ManifestInfo :=
  { plugin := JVal.str "my-panel", version := JVal.str "1.0.0", files := [],
    signPlugin := some { version := "eccentric" } }

/-- The digest of the empty file. -/
def emptyHex : String :=
  "e3b0c44298fc1c149afbf4c8996fb92427ae41e4649b934ca495991b7852b855"

/-- The manifest built from `treeJ1`. -/
def mJ1 : ManifestInfo :=
  { plugin := JVal.str "my-panel", version := JVal.str "1.0.0",
    files := [("a.txt", emptyHex), ("b.txt", emptyHex)] }

/-- The manifest built from `treeJ2`. -/
def mJ2 : ManifestInfo :=
  { plugin := JVal.str "my-panel", version := JVal.str "1.0.0",
    files := [("b.txt", emptyHex), ("a.txt", emptyHex)] }

/-- The manifest built over `treeE`: the symlink named like the reserved
output file contributes no entry. -/
def mE : ManifestInfo :=
  { plugin := JVal.str "my-panel", version := JVal.str "1.0.0",
    files := [("real.txt", emptyHex)] }

/-- The manifest built over `treeF`: the safe symlink contributes one entry
under its own relative path. -/
def mF : ManifestInfo :=
  { plugin := JVal.str "my-panel", version := JVal.str "1.0.0",
    files := [("data.bin", emptyHex), ("link.txt", emptyHex)] }

/-- The manifest built over `envG`: both required descriptor fields absent,
both recorded as `undefined`, no failure. -/
def mG : ManifestInfo :=
  { plugin := JVal.undefined, version := JVal.undefined, files := [] }

/-! ## String path lemmas -/

theorem string_data_inj {a b : String} (h : a.data = b.data) : a = b := by
  cases a; cases b; cases h; rfl

theorem string_ne_empty_of_data_ne {a : String} (h : a.data ≠ []) : a ≠ "" := by
  intro he; apply h; cases he; rfl

theorem data_posixJoin (dir name : String) :
    (posixJoin dir name).data = (dir.data ++ ['/']) ++ name.data := by
  simp [posixJoin, String.data_append]

theorem posixRelative_join (base rel : String) :
    posixRelative base (posixJoin base rel) = rel := by
  apply string_data_inj
  show (posixJoin base rel).data.drop (base.data.length + 1) = rel.data
  rw [data_posixJoin]
  have h2 : (base.data ++ ['/']).length = base.data.length + 1 := by simp
  rw [← h2, List.drop_left]

theorem posixJoin_ne_empty (dir name : String) : posixJoin dir name ≠ "" := by
  apply string_ne_empty_of_data_ne
  rw [data_posixJoin]
  simp

theorem relAt_ne_empty {n : String} (p : String) (h : n ≠ "") : relAt p n ≠ "" := by
  unfold relAt
  by_cases hp : p = "" <;> simp [hp, h]
  exact posixJoin_ne_empty p n

theorem posixJoin_dirAt (base p n : String) :
    posixJoin (dirAt base p) n = posixJoin base (relAt p n) := by
  unfold dirAt relAt
  by_cases hp : p = "" <;> simp [hp, posixJoin, String.append_assoc]

theorem dirAt_relAt (base p n : String) (h : n ≠ "") :
    dirAt base (relAt p n) = posixJoin (dirAt base p) n := by
  rw [posixJoin_dirAt]
  unfold dirAt
  simp [relAt_ne_empty p h]

theorem walk_rel_eq (base p n : String) :
    posixRelative base (posixJoin (dirAt base p) n) = relAt p n := by
  rw [posixJoin_dirAt, posixRelative_join]

/-! ## Rendered-path lemmas -/

theorem renderPath_cons {cs : List String} (n : String) (h : cs ≠ []) :
    renderPath (n :: cs) = posixJoin n (renderPath cs) := by
  cases cs with
  | nil => exact absurd rfl h
  | cons a t => rfl

theorem relAt_posixJoin (p n r : String) (hn : n ≠ "") :
    relAt p (posixJoin n r) = relAt (relAt p n) r := by
  by_cases hp : p = ""
  · simp [relAt, hp, hn, posixJoin]
  · have h1 : relAt p (posixJoin n r) = posixJoin p (posixJoin n r) := by
      unfold relAt; rw [if_neg hp]; rfl
    have h2 : relAt p n = posixJoin p n := by
      unfold relAt; rw [if_neg hp]; rfl
    have h3 : relAt (posixJoin p n) r = posixJoin (posixJoin p n) r := by
      unfold relAt; rw [if_neg (posixJoin_ne_empty p n)]; rfl
    rw [h1, h2, h3]
    simp [posixJoin, String.append_assoc]

theorem validNameB_spec {n : String} (h : validNameB n = true) :
    n ≠ "" ∧ '/' ∉ n.data := by
  simp only [validNameB, Bool.and_eq_true, Bool.not_eq_true', ne_eq,
    decide_eq_true_eq] at h
  obtain ⟨h1, h2⟩ := h
  refine ⟨h1, ?_⟩
  intro hm
  rw [List.contains_eq_any_beq] at h2
  simp only [List.any_eq_false] at h2
  exact absurd (by simp : ('/' : Char) == '/') (by simpa using h2 '/' hm)

theorem slash_split {x y X Y : List Char} (hx : '/' ∉ x) (hy : '/' ∉ y)
    (h : x ++ '/' :: X = y ++ '/' :: Y) : x = y ∧ X = Y := by
  induction x generalizing y with
  | nil =>
      cases y with
      | nil => simpa using h
      | cons b ys =>
          simp only [List.nil_append, List.cons_append, List.cons.injEq] at h
          exact absurd (List.mem_cons_self b ys) (h.1 ▸ hy)
  | cons a xs ih =>
      cases y with
      | nil =>
          simp only [List.cons_append, List.nil_append, List.cons.injEq] at h
          exact absurd (List.mem_cons_self a xs) (h.1 ▸ hx)
      | cons b ys =>
          simp only [List.cons_append, List.cons.injEq] at h
          obtain ⟨hab, ht⟩ := h
          have hx' : '/' ∉ xs := fun hm => hx (List.mem_cons_of_mem a hm)
          have hy' : '/' ∉ ys := fun hm => hy (List.mem_cons_of_mem b hm)
          obtain ⟨h1, h2⟩ := ih hx' hy' ht
          exact ⟨by rw [hab, h1], h2⟩

theorem data_renderPath_cons {cs : List String} (n : String) (h : cs ≠ []) :
    (renderPath (n :: cs)).data = n.data ++ '/' :: (renderPath cs).data := by
  rw [renderPath_cons n h, data_posixJoin]
  simp

theorem renderPath_inj : ∀ (cs cs' : List String),
    (∀ c ∈ cs, validNameB c = true) → (∀ c ∈ cs', validNameB c = true) →
    cs ≠ [] → cs' ≠ [] → renderPath cs = renderPath cs' → cs = cs'
  | [], _, _, _, h, _, _ => absurd rfl h
  | _ :: _, [], _, _, _, h, _ => absurd rfl h
  | [a], [b], _, _, _, _, h => by rw [show a = b from h]
  | [a], b :: b2 :: t, hv, hv', _, _, h => by
      have hd : a.data = b.data ++ '/' :: (renderPath (b2 :: t)).data := by
        have h' := congrArg String.data h
        rw [data_renderPath_cons b (by simp : b2 :: t ≠ [])] at h'
        exact h'
      have : '/' ∈ a.data := by rw [hd]; simp
      exact absurd this (validNameB_spec (hv a (by simp))).2
  | a :: a2 :: s, [b], hv, hv', _, _, h => by
      have hd : b.data = a.data ++ '/' :: (renderPath (a2 :: s)).data := by
        rw [← data_renderPath_cons a (by simp : a2 :: s ≠ [])]
        exact (congrArg String.data h).symm
      have : '/' ∈ b.data := by rw [hd]; simp
      exact absurd this (validNameB_spec (hv' b (by simp))).2
  | a :: a2 :: s, b :: b2 :: t, hv, hv', _, _, h => by
      have hd := congrArg String.data h
      rw [data_renderPath_cons a (by simp : a2 :: s ≠ []),
          data_renderPath_cons b (by simp : b2 :: t ≠ [])] at hd
      obtain ⟨h1, h2⟩ := slash_split (validNameB_spec (hv a (by simp))).2
        (validNameB_spec (hv' b (by simp))).2 hd
      have hrec := renderPath_inj (a2 :: s) (b2 :: t)
        (fun c hc => hv c (List.mem_cons_of_mem a hc))
        (fun c hc => hv' c (List.mem_cons_of_mem b hc))
        (by simp) (by simp) (string_data_inj h2)
      rw [string_data_inj h1, hrec]

/-! ## Structure of the listing paths -/

theorem listingPaths_ne_nil (env : Env) (base : String) :
    ∀ es : List (String × Ent), ∀ cs ∈ listingPaths env base es, cs ≠ []
  | [] => by simp [listingPaths]
  | (n, Ent.file c) :: rest => by
      intro cs hm
      simp only [listingPaths, List.mem_cons] at hm
      rcases hm with h | h
      · simp [h]
      · exact listingPaths_ne_nil env base rest cs h
  | (n, Ent.dir sub) :: rest => by
      intro cs hm
      simp only [listingPaths, List.mem_append, List.mem_map] at hm
      rcases hm with ⟨cs', _, h⟩ | h
      · simp [← h]
      · exact listingPaths_ne_nil env base rest cs h
  | (n, Ent.symlink rp) :: rest => by
      intro cs hm
      simp only [listingPaths, List.mem_append] at hm
      rcases hm with h | h
      · by_cases hs : strStartsWith rp base
        · rw [if_pos hs] at h
          cases hstat : env.statAbs rp <;> rw [hstat] at h <;> simp at h
          simp [h]
        · rw [if_neg hs] at h
          simp at h
      · exact listingPaths_ne_nil env base rest cs h
  | (n, Ent.other) :: rest => by
      intro cs hm
      simp only [listingPaths] at hm
      exact listingPaths_ne_nil env base rest cs hm

theorem wfB_cons {n : String} {e : Ent} {rest : List (String × Ent)}
    (h : wfB ((n, e) :: rest) = true) :
    validNameB n = true ∧ (rest.map Prod.fst).contains n = false ∧ wfB rest = true := by
  cases e <;>
    simp only [wfB, Bool.and_eq_true, Bool.not_eq_true'] at h <;>
    tauto

theorem wfB_dir {n : String} {sub rest : List (String × Ent)}
    (h : wfB ((n, Ent.dir sub) :: rest) = true) : wfB sub = true := by
  simp only [wfB, Bool.and_eq_true] at h
  tauto

theorem listingPaths_valid (env : Env) (base : String) :
    ∀ es : List (String × Ent), wfB es = true →
      ∀ cs ∈ listingPaths env base es, ∀ c ∈ cs, validNameB c = true
  | [] => by simp [listingPaths]
  | (n, Ent.file cnt) :: rest => by
      intro hwf cs hm c hc
      obtain ⟨hn, _, hr⟩ := wfB_cons hwf
      simp only [listingPaths, List.mem_cons] at hm
      rcases hm with h | h
      · subst h; simp only [List.mem_singleton] at hc; rw [hc]; exact hn
      · exact listingPaths_valid env base rest hr cs h c hc
  | (n, Ent.dir sub) :: rest => by
      intro hwf cs hm c hc
      obtain ⟨hn, _, hr⟩ := wfB_cons hwf
      simp only [listingPaths, List.mem_append, List.mem_map] at hm
      rcases hm with ⟨cs', hcs', h⟩ | h
      · subst h
        simp only [List.mem_cons] at hc
        rcases hc with h | h
        · rw [h]; exact hn
        · exact listingPaths_valid env base sub (wfB_dir hwf) cs' hcs' c h
      · exact listingPaths_valid env base rest hr cs h c hc
  | (n, Ent.symlink rp) :: rest => by
      intro hwf cs hm c hc
      obtain ⟨hn, _, hr⟩ := wfB_cons hwf
      simp only [listingPaths, List.mem_append] at hm
      rcases hm with h | h
      · by_cases hs : strStartsWith rp base
        · rw [if_pos hs] at h
          cases hstat : env.statAbs rp <;> rw [hstat] at h <;> simp at h
          subst h
          simp only [List.mem_singleton] at hc
          rw [hc]; exact hn
        · rw [if_neg hs] at h; simp at h
      · exact listingPaths_valid env base rest hr cs h c hc
  | (n, Ent.other) :: rest => by
      intro hwf cs hm c hc
      obtain ⟨_, _, hr⟩ := wfB_cons hwf
      simp only [listingPaths] at hm
      exact listingPaths_valid env base rest hr cs hm c hc

theorem listingPaths_head (env : Env) (base : String) :
    ∀ es : List (String × Ent), ∀ cs ∈ listingPaths env base es,
      ∃ n t, cs = n :: t ∧ n ∈ es.map Prod.fst
  | [] => by simp [listingPaths]
  | (n, Ent.file c) :: rest => by
      intro cs hm
      simp only [listingPaths, List.mem_cons] at hm
      rcases hm with h | h
      · exact ⟨n, [], h, by simp⟩
      · obtain ⟨m, t, he, hmem⟩ := listingPaths_head env base rest cs h
        exact ⟨m, t, he, by simp only [List.map_cons]; exact List.mem_cons_of_mem _ hmem⟩
  | (n, Ent.dir sub) :: rest => by
      intro cs hm
      simp only [listingPaths, List.mem_append, List.mem_map] at hm
      rcases hm with ⟨cs', _, h⟩ | h
      · exact ⟨n, cs', h.symm, by simp⟩
      · obtain ⟨m, t, he, hmem⟩ := listingPaths_head env base rest cs h
        exact ⟨m, t, he, by simp only [List.map_cons]; exact List.mem_cons_of_mem _ hmem⟩
  | (n, Ent.symlink rp) :: rest => by
      intro cs hm
      simp only [listingPaths, List.mem_append] at hm
      rcases hm with h | h
      · by_cases hs : strStartsWith rp base
        · rw [if_pos hs] at h
          cases hstat : env.statAbs rp <;> rw [hstat] at h <;> simp at h
          exact ⟨n, [], h, by simp⟩
        · rw [if_neg hs] at h; simp at h
      · obtain ⟨m, t, he, hmem⟩ := listingPaths_head env base rest cs h
        exact ⟨m, t, he, by simp only [List.map_cons]; exact List.mem_cons_of_mem _ hmem⟩
  | (n, Ent.other) :: rest => by
      intro cs hm
      simp only [listingPaths] at hm
      obtain ⟨m, t, he, hmem⟩ := listingPaths_head env base rest cs hm
      exact ⟨m, t, he, by simp only [List.map_cons]; exact List.mem_cons_of_mem _ hmem⟩

theorem contains_false_not_mem {l : List String} {n : String}
    (h : l.contains n = false) : ¬ n ∈ l := by
  intro hm
  rw [List.contains_eq_any_beq] at h
  simp only [List.any_eq_false] at h
  exact absurd (by simp : n == n) (by simpa using h n hm)

theorem listingPaths_nodup (env : Env) (base : String) :
    ∀ es : List (String × Ent), wfB es = true → (listingPaths env base es).Nodup
  | [] => by simp [listingPaths]
  | (n, Ent.file c) :: rest => by
      intro hwf
      obtain ⟨_, hc, hr⟩ := wfB_cons hwf
      simp only [listingPaths, List.nodup_cons]
      refine ⟨?_, listingPaths_nodup env base rest hr⟩
      intro hm
      obtain ⟨m, t, he, hmem⟩ := listingPaths_head env base rest _ hm
      simp only [List.cons.injEq] at he
      exact contains_false_not_mem hc (he.1 ▸ hmem)
  | (n, Ent.dir sub) :: rest => by
      intro hwf
      obtain ⟨_, hc, hr⟩ := wfB_cons hwf
      simp only [listingPaths]
      refine List.Nodup.append ?_ (listingPaths_nodup env base rest hr) ?_
      · exact (listingPaths_nodup env base sub (wfB_dir hwf)).map
          (fun a b hab => by simpa using hab)
      · intro cs h1 h2
        simp only [List.mem_map] at h1
        obtain ⟨cs', _, he⟩ := h1
        obtain ⟨m, t, he2, hmem⟩ := listingPaths_head env base rest cs h2
        rw [← he] at he2
        simp only [List.cons.injEq] at he2
        exact contains_false_not_mem hc (he2.1 ▸ hmem)
  | (n, Ent.symlink rp) :: rest => by
      intro hwf
      obtain ⟨_, hc, hr⟩ := wfB_cons hwf
      simp only [listingPaths]
      by_cases hs : strStartsWith rp base
      · rw [if_pos hs]
        cases hstat : env.statAbs rp <;>
          simp only [List.nil_append, List.singleton_append, List.nodup_cons]
        · refine ⟨?_, listingPaths_nodup env base rest hr⟩
          intro hm
          obtain ⟨m, t, he, hmem⟩ := listingPaths_head env base rest _ hm
          simp only [List.cons.injEq] at he
          exact contains_false_not_mem hc (he.1 ▸ hmem)
        · exact listingPaths_nodup env base rest hr
        · exact listingPaths_nodup env base rest hr
      · rw [if_neg hs]
        simp only [List.nil_append]
        exact listingPaths_nodup env base rest hr
  | (n, Ent.other) :: rest => by
      intro hwf
      obtain ⟨_, _, hr⟩ := wfB_cons hwf
      simp only [listingPaths]
      exact listingPaths_nodup env base rest hr

/-! ## The walker yields exactly the listing paths -/

theorem noEscapeB_cons {base : String} {n : String} {e : Ent}
    {rest : List (String × Ent)} (h : noEscapeB base ((n, e) :: rest) = true) :
    noEscapeB base rest = true := by
  cases e <;> simp only [noEscapeB, Bool.and_eq_true] at h <;> tauto

theorem noEscapeB_dir {base n : String} {sub rest : List (String × Ent)}
    (h : noEscapeB base ((n, Ent.dir sub) :: rest) = true) :
    noEscapeB base sub = true := by
  simp only [noEscapeB, Bool.and_eq_true] at h
  exact h.1

theorem noEscapeB_symlink {base n rp : String} {rest : List (String × Ent)}
    (h : noEscapeB base ((n, Ent.symlink rp) :: rest) = true) :
    strStartsWith rp base = true := by
  simp only [noEscapeB, Bool.and_eq_true] at h
  exact h.1

/-- The central correspondence: on a well-formed listing with no escaping
symbolic link, the walker succeeds and yields exactly the listing paths,
rendered relative to the walked prefix. -/
theorem walk_listing (env : Env) (base : String) :
    ∀ (p : String) (es : List (String × Ent)), wfB es = true →
      noEscapeB base es = true →
      walk env base (dirAt base p) es =
        Except.ok ((listingPaths env base es).map (fun cs => relAt p (renderPath cs)))
  | p, [] => by intro _ _; simp [walk, listingPaths]
  | p, (n, Ent.file c) :: rest => by
      intro hwf hne
      have hrest := walk_listing env base p rest (wfB_cons hwf).2.2 (noEscapeB_cons hne)
      simp only [walk, hrest, listingPaths, List.map_cons, bind, Except.bind]
      rw [walk_rel_eq base p n]
      rfl
  | p, (n, Ent.dir sub) :: rest => by
      intro hwf hne
      have hn := (validNameB_spec (wfB_cons hwf).1).1
      have hsub := walk_listing env base (relAt p n) sub (wfB_dir hwf) (noEscapeB_dir hne)
      rw [dirAt_relAt base p n hn] at hsub
      have hrest := walk_listing env base p rest (wfB_cons hwf).2.2 (noEscapeB_cons hne)
      simp only [walk, hsub, hrest, listingPaths, bind, Except.bind, List.map_append,
        List.map_map]
      congr 2
      apply List.map_congr_left
      intro cs hcs
      simp only [Function.comp_apply]
      rw [renderPath_cons n (listingPaths_ne_nil env base sub cs hcs),
        relAt_posixJoin p n _ hn]
  | p, (n, Ent.symlink rp) :: rest => by
      intro hwf hne
      have hs := noEscapeB_symlink hne
      have hrest := walk_listing env base p rest (wfB_cons hwf).2.2 (noEscapeB_cons hne)
      simp only [walk, hs, if_pos, hrest, listingPaths, bind, Except.bind]
      cases hstat : env.statAbs rp
      case file =>
        simp only [List.singleton_append, List.map_cons]
        rw [walk_rel_eq base p n]
        rfl
      case dir => simp
      case other => simp
  | p, (n, Ent.other) :: rest => by
      intro hwf hne
      have hrest := walk_listing env base p rest (wfB_cons hwf).2.2 (noEscapeB_cons hne)
      simp only [walk, listingPaths]
      exact hrest

/-- The walker started at the base directory itself. -/
theorem walk_at_base (env : Env) (base : String) (es : List (String × Ent))
    (hwf : wfB es = true) (hne : noEscapeB base es = true) :
    walk env base base es = Except.ok ((listingPaths env base es).map renderPath) := by
  have h := walk_listing env base "" es hwf hne
  simpa [dirAt, relAt] using h

/-! ## Regular-file-only listings -/

theorem regOnly_noEscape (base : String) :
    ∀ es : List (String × Ent), regOnlyB es = true → noEscapeB base es = true
  | [] => by simp [regOnlyB, noEscapeB]
  | (n, Ent.file c) :: rest => by
      intro h
      simp only [regOnlyB] at h
      simp only [noEscapeB]
      exact regOnly_noEscape base rest h
  | (n, Ent.dir sub) :: rest => by
      intro h
      simp only [regOnlyB, Bool.and_eq_true] at h
      simp only [noEscapeB, Bool.and_eq_true]
      exact ⟨regOnly_noEscape base sub h.1, regOnly_noEscape base rest h.2⟩
  | (n, Ent.symlink rp) :: rest => by intro h; simp [regOnlyB] at h
  | (n, Ent.other) :: rest => by intro h; simp [regOnlyB] at h

theorem listingPaths_regOnly (env : Env) (base : String) :
    ∀ es : List (String × Ent), regOnlyB es = true →
      listingPaths env base es = (filesAt es).map Prod.fst
  | [] => by simp [listingPaths, filesAt]
  | (n, Ent.file c) :: rest => by
      intro h
      simp only [regOnlyB] at h
      simp only [listingPaths, filesAt, List.map_cons]
      rw [listingPaths_regOnly env base rest h]
  | (n, Ent.dir sub) :: rest => by
      intro h
      simp only [regOnlyB, Bool.and_eq_true] at h
      simp only [listingPaths, filesAt, List.map_append, List.map_map]
      rw [listingPaths_regOnly env base sub h.1, listingPaths_regOnly env base rest h.2,
        List.map_map]
      rfl
  | (n, Ent.symlink rp) :: rest => by intro h; simp [regOnlyB] at h
  | (n, Ent.other) :: rest => by intro h; simp [regOnlyB] at h

/-! ## The hashing loop -/

theorem recordSet_append {m : List (String × String)} {k : String} (v : String)
    (h : ¬ k ∈ m.map Prod.fst) : recordSet m k v = m ++ [(k, v)] := by
  unfold recordSet
  rw [if_neg]
  intro ha
  simp only [List.any_eq_true] at ha
  obtain ⟨kv, hkv, he⟩ := ha
  exact h (by simp only [List.mem_map]; exact ⟨kv, hkv, by simpa using he⟩)

theorem hashFiles_collect (env : Env) (dir : String) :
    ∀ (ps : List String) (acc fs : List (String × String)), ps.Nodup →
      (∀ kv ∈ acc, ¬ kv.1 ∈ ps) →
      hashFiles env dir ps acc = Except.ok fs →
      ∃ l, collectHashes env dir ps = some l ∧ fs = acc ++ l := by
  intro ps
  induction ps with
  | nil =>
      intro acc fs _ _ h
      simp only [hashFiles, Except.ok.injEq] at h
      exact ⟨[], rfl, by simp [h]⟩
  | cons p ps ih =>
      intro acc fs hnd hdisj h
      by_cases hm : p = MANIFEST_FILE
      · rw [hm] at h ⊢
        simp only [hashFiles, if_pos rfl] at h
        simp only [collectHashes, if_pos rfl]
        exact ih acc fs (List.Nodup.of_cons hnd)
          (fun kv hkv => fun hmem => hdisj kv hkv (List.mem_cons_of_mem _ hmem)) h
      · simp only [hashFiles, if_neg hm] at h
        cases hr : env.readAbs (posixJoin dir p) with
        | none => rw [hr] at h; simp at h
        | some bytes =>
            rw [hr] at h
            have h2 : hashFiles env dir ps (recordSet acc p (sha256hex bytes)) =
                Except.ok fs := h
            have hnotacc : ¬ p ∈ acc.map Prod.fst := by
              intro hmem
              simp only [List.mem_map] at hmem
              obtain ⟨kv, hkv, he⟩ := hmem
              exact hdisj kv hkv (he ▸ List.mem_cons_self p ps)
            rw [recordSet_append (sha256hex bytes) hnotacc] at h2
            have hdisj' : ∀ kv ∈ acc ++ [(p, sha256hex bytes)], ¬ kv.1 ∈ ps := by
              intro kv hkv hmem
              simp only [List.mem_append, List.mem_singleton] at hkv
              rcases hkv with hkv | hkv
              · exact hdisj kv hkv (List.mem_cons_of_mem _ hmem)
              · rw [hkv] at hmem
                exact (List.nodup_cons.mp hnd).1 hmem
            obtain ⟨l, hc, he⟩ := ih (acc ++ [(p, sha256hex bytes)]) fs
              (List.Nodup.of_cons hnd) hdisj' h2
            refine ⟨(p, sha256hex bytes) :: l, ?_, ?_⟩
            · simp only [collectHashes, if_neg hm, hr, hc, Option.map]
            · rw [he, List.append_assoc]; rfl

theorem collect_hashFiles (env : Env) (dir : String) :
    ∀ (ps : List String) (acc l : List (String × String)), ps.Nodup →
      (∀ kv ∈ acc, ¬ kv.1 ∈ ps) →
      collectHashes env dir ps = some l →
      hashFiles env dir ps acc = Except.ok (acc ++ l) := by
  intro ps
  induction ps with
  | nil =>
      intro acc l _ _ h
      simp only [collectHashes, Option.some.injEq] at h
      simp [hashFiles, ← h]
  | cons p ps ih =>
      intro acc l hnd hdisj h
      by_cases hm : p = MANIFEST_FILE
      · rw [hm] at h ⊢
        simp only [collectHashes, if_pos rfl] at h
        simp only [hashFiles, if_pos rfl]
        exact ih acc l (List.Nodup.of_cons hnd)
          (fun kv hkv hmem => hdisj kv hkv (List.mem_cons_of_mem _ hmem)) h
      · simp only [collectHashes, if_neg hm] at h
        cases hr : env.readAbs (posixJoin dir p) with
        | none => rw [hr] at h; simp at h
        | some bytes =>
            rw [hr] at h
            cases hc : collectHashes env dir ps with
            | none => rw [hc] at h; simp at h
            | some l' =>
                rw [hc] at h
                have h3 : (p, sha256hex bytes) :: l' = l := by simpa [Option.map] using h
                simp only [hashFiles, if_neg hm, hr]
                have hnotacc : ¬ p ∈ acc.map Prod.fst := by
                  intro hmem
                  simp only [List.mem_map] at hmem
                  obtain ⟨kv, hkv, he⟩ := hmem
                  exact hdisj kv hkv (he ▸ List.mem_cons_self p ps)
                rw [recordSet_append (sha256hex bytes) hnotacc]
                have hdisj' : ∀ kv ∈ acc ++ [(p, sha256hex bytes)], ¬ kv.1 ∈ ps := by
                  intro kv hkv hmem
                  simp only [List.mem_append, List.mem_singleton] at hkv
                  rcases hkv with hkv | hkv
                  · exact hdisj kv hkv (List.mem_cons_of_mem _ hmem)
                  · rw [hkv] at hmem
                    exact (List.nodup_cons.mp hnd).1 hmem
                rw [ih (acc ++ [(p, sha256hex bytes)]) l' (List.Nodup.of_cons hnd) hdisj' hc]
                rw [← h3, List.append_assoc]
                rfl

theorem collect_eq_filterMap (env : Env) (dir : String) :
    ∀ (ps : List String) (l : List (String × String)),
      collectHashes env dir ps = some l → l = ps.filterMap (hashFn env dir) := by
  intro ps
  induction ps with
  | nil => intro l h; simp only [collectHashes, Option.some.injEq] at h; simp [← h]
  | cons p ps ih =>
      intro l h
      by_cases hm : p = MANIFEST_FILE
      · rw [hm] at h ⊢
        simp only [collectHashes, if_pos rfl] at h
        simp only [List.filterMap_cons, hashFn, if_pos rfl]
        exact ih l h
      · simp only [collectHashes, if_neg hm] at h
        cases hr : env.readAbs (posixJoin dir p) with
        | none => rw [hr] at h; simp at h
        | some bytes =>
            rw [hr] at h
            cases hc : collectHashes env dir ps with
            | none => rw [hc] at h; simp at h
            | some l' =>
                rw [hc] at h
                have h3 : (p, sha256hex bytes) :: l' = l := by simpa [Option.map] using h
                simp only [List.filterMap_cons, hashFn, if_neg hm, hr, Option.map]
                rw [← h3, ih l' hc]

theorem collect_of_reads (env : Env) (dir : String) :
    ∀ ps : List String,
      (∀ p ∈ ps, p = MANIFEST_FILE ∨ (env.readAbs (posixJoin dir p)).isSome) →
      collectHashes env dir ps = some (ps.filterMap (hashFn env dir)) := by
  intro ps
  induction ps with
  | nil => simp [collectHashes]
  | cons p ps ih =>
      intro hreads
      have hrest := ih (fun q hq => hreads q (List.mem_cons_of_mem _ hq))
      by_cases hm : p = MANIFEST_FILE
      · simp [collectHashes, List.filterMap_cons, hashFn, hm, hrest]
      · rcases hreads p (List.mem_cons_self p ps) with h | h
        · exact absurd h hm
        · cases hr : env.readAbs (posixJoin dir p) with
          | none => rw [hr] at h; simp at h
          | some bytes =>
              simp only [collectHashes, if_neg hm, hr, List.filterMap_cons, hashFn,
                hrest, Option.map]

/-! ## Inverting and evaluating the manifest builder -/

theorem except_bind_ok {α β : Type} {x : Except String α} {f : α → Except String β}
    {b : β} (h : (x >>= f) = Except.ok b) : ∃ a, x = Except.ok a ∧ f a = Except.ok b := by
  cases x with
  | error e => simp [bind, Except.bind] at h
  | ok a => exact ⟨a, rfl, by simpa [bind, Except.bind] using h⟩

theorem jGet_ok {v : JVal} (k : String) (h1 : v ≠ JVal.null)
    (h2 : v ≠ JVal.undefined) : jGet v k = Except.ok (jIndex v k) := by
  cases v
  case null => exact absurd rfl h1
  case undefined => exact absurd rfl h2
  all_goals rfl

theorem buildManifest_ok_elim {env : Env} {dir : String} {m : ManifestInfo}
    (hb : buildManifest env dir = Except.ok m) :
    ∃ bs pj infoVal es paths,
      env.readAbs (posixJoin dir "plugin.json") = some bs ∧
      env.parseJson bs = Except.ok pj ∧
      jGet pj "id" = Except.ok m.plugin ∧
      jGet pj "info" = Except.ok infoVal ∧
      jGet infoVal "version" = Except.ok m.version ∧
      env.dirTree dir = some es ∧
      walk env dir dir es = Except.ok paths ∧
      hashFiles env dir paths [] = Except.ok m.files ∧
      m.signatureType = none ∧ m.rootUrls = none ∧ m.signPlugin = none := by
  unfold buildManifest at hb
  obtain ⟨bs, hbs, hb⟩ := except_bind_ok hb
  obtain ⟨pj, hpj, hb⟩ := except_bind_ok hb
  obtain ⟨idv, hid, hb⟩ := except_bind_ok hb
  obtain ⟨infov, hinfo, hb⟩ := except_bind_ok hb
  obtain ⟨verv, hver, hb⟩ := except_bind_ok hb
  obtain ⟨es, hes, hb⟩ := except_bind_ok hb
  obtain ⟨paths, hpaths, hb⟩ := except_bind_ok hb
  obtain ⟨files, hfiles, hb⟩ := except_bind_ok hb
  simp only [Except.ok.injEq] at hb
  subst hb
  have hbs' : env.readAbs (posixJoin dir "plugin.json") = some bs := by
    unfold readFileExcept at hbs
    cases h1 : env.readAbs (posixJoin dir "plugin.json") <;> rw [h1] at hbs
    · simp at hbs
    · simpa using hbs
  have hes' : env.dirTree dir = some es := by
    unfold opendirExcept at hes
    cases h1 : env.dirTree dir <;> rw [h1] at hes
    · simp at hes
    · simpa using hes
  exact ⟨bs, pj, infov, es, paths, hbs', hpj, hid, hinfo, hver, hes', hpaths, hfiles,
    rfl, rfl, rfl⟩

theorem buildManifest_eval {env : Env} {dir : String} {bs : List Nat} {pj : JVal}
    {es : List (String × Ent)} {paths : List String} {files : List (String × String)}
    (h1 : env.readAbs (posixJoin dir "plugin.json") = some bs)
    (h2 : env.parseJson bs = Except.ok pj)
    (h3 : pj ≠ JVal.null) (h4 : pj ≠ JVal.undefined)
    (h5 : jIndex pj "info" ≠ JVal.null) (h6 : jIndex pj "info" ≠ JVal.undefined)
    (h7 : env.dirTree dir = some es)
    (h8 : walk env dir dir es = Except.ok paths)
    (h9 : hashFiles env dir paths [] = Except.ok files) :
    buildManifest env dir = Except.ok
      { plugin := jIndex pj "id", version := jIndex (jIndex pj "info") "version",
        files := files } := by
  simp only [buildManifest, readFileExcept, opendirExcept, h1, h2, h7, h8, h9,
    jGet_ok "id" h3 h4, jGet_ok "info" h3 h4, jGet_ok "version" h5 h6, bind,
    Except.bind]

theorem filterMap_ite {α β : Type} (l : List α) (q : α → Prop) [DecidablePred q]
    (f : α → β) :
    l.filterMap (fun a => if q a then none else some (f a)) =
      (l.filter (fun a => ¬ q a)).map f := by
  induction l with
  | nil => simp
  | cons a t ih => by_cases h : q a <;> simp [h, ih]

theorem listing_render_nodup (env : Env) (base : String) (es : List (String × Ent))
    (hwf : wfB es = true) :
    ((listingPaths env base es).map renderPath).Nodup := by
  refine (listingPaths_nodup env base es hwf).map_on ?_
  intro x hx y hy hxy
  exact renderPath_inj x y
    (listingPaths_valid env base es hwf x hx)
    (listingPaths_valid env base es hwf y hy)
    (listingPaths_ne_nil env base es x hx)
    (listingPaths_ne_nil env base es y hy) hxy

/-- C1: for a content directory containing only regular files (and
directories), a successful `buildManifest` produces a `files` table with
exactly one entry per regular file reachable from the root other than the
reserved output filename: the key is the file's root-relative forward-slash
path and the value is the lowercase-hex SHA-256 digest of its exact bytes.
The key list has no duplicates, so each file contributes exactly one entry. -/
theorem c1_files_exact (env : Env) (dir : String) (es : List (String × Ent))
    (m : ManifestInfo)
    (htree : env.dirTree dir = some es)
    (hwf : wfB es = true)
    (hreg : regOnlyB es = true)
    (hread : ∀ fc ∈ filesAt es, env.readAbs (posixJoin dir (renderPath fc.1)) = some fc.2)
    (hb : buildManifest env dir = Except.ok m) :
    m.files =
      ((filesAt es).filter (fun fc => renderPath fc.1 ≠ MANIFEST_FILE)).map
        (fun fc => (renderPath fc.1, sha256hex fc.2)) ∧
    (m.files.map Prod.fst).Nodup := by
  obtain ⟨bs, pj, infov, es', paths, hbs, hpj, hid, hinfo, hver, hes, hpaths, hfiles,
    hst, hru, hsp⟩ := buildManifest_ok_elim hb
  rw [htree] at hes
  injection hes with hes
  subst hes
  have hne := regOnly_noEscape dir es hreg
  have hwalk := walk_at_base env dir es hwf hne
  rw [hpaths] at hwalk
  injection hwalk with hpathsEq
  have hndPs : paths.Nodup := by
    rw [hpathsEq]
    exact listing_render_nodup env dir es hwf
  obtain ⟨l, hcl, hfl⟩ := hashFiles_collect env dir paths [] m.files hndPs
    (by simp) hfiles
  simp only [List.nil_append] at hfl
  have hflm := collect_eq_filterMap env dir paths l hcl
  have hpaths2 : paths = (filesAt es).map (fun fc => renderPath fc.1) := by
    rw [hpathsEq, listingPaths_regOnly env dir es hreg, List.map_map]
    rfl
  rw [hpaths2, List.filterMap_map] at hflm
  have hcong : (filesAt es).filterMap ((hashFn env dir) ∘ (fun fc => renderPath fc.1)) =
      (filesAt es).filterMap
        (fun fc => if renderPath fc.1 = MANIFEST_FILE then none
          else some (renderPath fc.1, sha256hex fc.2)) := by
    apply List.filterMap_congr
    intro fc hfc
    simp only [Function.comp_apply, hashFn]
    by_cases hq : renderPath fc.1 = MANIFEST_FILE
    · rw [if_pos hq, if_pos hq]
    · rw [if_neg hq, if_neg hq, hread fc hfc]
      rfl
  rw [hcong, filterMap_ite (filesAt es) (fun fc => renderPath fc.1 = MANIFEST_FILE)
    (fun fc => (renderPath fc.1, sha256hex fc.2))] at hflm
  constructor
  · rw [hfl, hflm]
  · rw [hfl, hflm, List.map_map]
    have hkeys : (Prod.fst ∘ fun fc => (renderPath fc.1, sha256hex fc.2)) =
        (fun fc : List String × List Nat => renderPath fc.1) := rfl
    rw [hkeys]
    have hsub : List.Sublist
        (((filesAt es).filter (fun fc => ¬ renderPath fc.1 = MANIFEST_FILE)).map
          (fun fc => renderPath fc.1))
        ((filesAt es).map (fun fc => renderPath fc.1)) :=
      (List.filter_sublist (filesAt es)).map _
    exact (hpaths2 ▸ hndPs).sublist hsub

theorem c1_files_exact_witness :
    mA.files =
      ((filesAt treeA).filter (fun fc => renderPath fc.1 ≠ MANIFEST_FILE)).map
        (fun fc => (renderPath fc.1, sha256hex fc.2)) ∧
    (mA.files.map Prod.fst).Nodup :=
  c1_files_exact envA "/work/dist" treeA mA rfl
    (by simp [wfB, treeA, validNameB])
    (by simp [regOnlyB, treeA])
    (by
      intro fc hfc
      simp only [treeA, filesAt] at hfc
      simp only [List.mem_singleton] at hfc
      subst hfc
      rfl)
    (by
      have hwalk : walk envA "/work/dist" "/work/dist" treeA =
          Except.ok ["module.js"] := by
        simp [walk, treeA, bind, Except.bind, posixRelative_join]
      exact buildManifest_eval rfl rfl
        (fun h => JVal.noConfusion h) (fun h => JVal.noConfusion h)
        (fun h => JVal.noConfusion h) (fun h => JVal.noConfusion h)
        rfl hwalk rfl)

/-! ## Keys written by the hashing loop -/

theorem recordSet_key_mem {m : List (String × String)} {k v : String}
    {kv : String × String} (h : kv ∈ recordSet m k v) :
    kv.1 = k ∨ kv ∈ m := by
  unfold recordSet at h
  by_cases ha : m.any (fun kv => kv.1 = k)
  · rw [if_pos ha] at h
    simp only [List.mem_map] at h
    obtain ⟨kv', hkv', he⟩ := h
    by_cases hk : kv'.1 = k
    · rw [if_pos hk] at he; left; rw [← he]
    · rw [if_neg hk] at he; right; rw [← he]; exact hkv'
  · rw [if_neg ha] at h
    simp only [List.mem_append, List.mem_singleton] at h
    rcases h with h | h
    · right; exact h
    · left; rw [h]

theorem hashFiles_keys (env : Env) (dir : String) :
    ∀ (ps : List String) (acc fs : List (String × String)),
      hashFiles env dir ps acc = Except.ok fs →
      (∀ kv ∈ acc, kv.1 ≠ MANIFEST_FILE) →
      ∀ kv ∈ fs, kv.1 ≠ MANIFEST_FILE := by
  intro ps
  induction ps with
  | nil =>
      intro acc fs h hacc
      simp only [hashFiles, Except.ok.injEq] at h
      rw [← h]
      exact hacc
  | cons p ps ih =>
      intro acc fs h hacc
      by_cases hm : p = MANIFEST_FILE
      · rw [hm] at h
        simp only [hashFiles, if_pos rfl] at h
        exact ih acc fs h hacc
      · simp only [hashFiles, if_neg hm] at h
        cases hr : env.readAbs (posixJoin dir p) with
        | none => rw [hr] at h; simp at h
        | some bytes =>
            rw [hr] at h
            have h2 : hashFiles env dir ps (recordSet acc p (sha256hex bytes)) =
                Except.ok fs := h
            refine ih (recordSet acc p (sha256hex bytes)) fs h2 ?_
            intro kv hkv
            rcases recordSet_key_mem hkv with he | he
            · rw [he]; exact hm
            · exact hacc kv he

/-- C4: whatever the content directory holds — including a `MANIFEST.txt`
left at the root by a previous run — a manifest returned by `buildManifest`
never contains an entry whose key is the reserved output filename. -/
theorem c4_no_reserved_key (env : Env) (dir : String) (m : ManifestInfo)
    (hb : buildManifest env dir = Except.ok m) :
    ∀ kv ∈ m.files, kv.1 ≠ MANIFEST_FILE := by
  obtain ⟨bs, pj, infov, es, paths, hbs, hpj, hid, hinfo, hver, hes, hpaths, hfiles,
    hst, hru, hsp⟩ := buildManifest_ok_elim hb
  exact hashFiles_keys env dir paths [] m.files hfiles (by simp)

theorem c4_no_reserved_key_witness :
    buildManifest envB "/work/dist" = Except.ok mB ∧
    mB.files.countP (fun kv => kv.1 = MANIFEST_FILE) = 0 := by
  have hwalk : walk envB "/work/dist" "/work/dist" treeB =
      Except.ok ["MANIFEST.txt"] := by
    simp [walk, treeB, bind, Except.bind, posixRelative_join]
  have hb : buildManifest envB "/work/dist" = Except.ok mB :=
    @buildManifest_eval envB "/work/dist" [] pjGood treeB ["MANIFEST.txt"]
      mB.files rfl rfl
      (fun h => JVal.noConfusion h) (fun h => JVal.noConfusion h)
      (fun h => JVal.noConfusion h) (fun h => JVal.noConfusion h)
      rfl hwalk rfl
  refine ⟨hb, List.countP_eq_zero.mpr ?_⟩
  intro kv hkv
  simpa using c4_no_reserved_key envB "/work/dist" mB hb kv hkv

/-! ## Escaping symbolic links abort the walk -/

theorem escLinks_nil (base : String) :
    ∀ (es : List (String × Ent)) (p : String), noEscapeB base es = true →
      escLinksOf base p es = []
  | [] => by intro p _; simp [escLinksOf]
  | (n, Ent.file c) :: rest => by
      intro p h
      simp only [noEscapeB] at h
      simp only [escLinksOf]
      exact escLinks_nil base rest p h
  | (n, Ent.dir sub) :: rest => by
      intro p h
      simp only [noEscapeB, Bool.and_eq_true] at h
      simp only [escLinksOf, List.append_eq_nil]
      exact ⟨escLinks_nil base sub (relAt p n) h.1, escLinks_nil base rest p h.2⟩
  | (n, Ent.symlink rp) :: rest => by
      intro p h
      simp only [noEscapeB, Bool.and_eq_true] at h
      simp only [escLinksOf, if_pos h.1, List.nil_append]
      exact escLinks_nil base rest p h.2
  | (n, Ent.other) :: rest => by
      intro p h
      simp only [noEscapeB] at h
      simp only [escLinksOf]
      exact escLinks_nil base rest p h

theorem noEscape_of_escLinks_nil (base : String) :
    ∀ (es : List (String × Ent)) (p : String), escLinksOf base p es = [] →
      noEscapeB base es = true
  | [] => by intro p _; simp [noEscapeB]
  | (n, Ent.file c) :: rest => by
      intro p h
      simp only [escLinksOf] at h
      simp only [noEscapeB]
      exact noEscape_of_escLinks_nil base rest p h
  | (n, Ent.dir sub) :: rest => by
      intro p h
      simp only [escLinksOf, List.append_eq_nil] at h
      simp only [noEscapeB, Bool.and_eq_true]
      exact ⟨noEscape_of_escLinks_nil base sub (relAt p n) h.1,
        noEscape_of_escLinks_nil base rest p h.2⟩
  | (n, Ent.symlink rp) :: rest => by
      intro p h
      by_cases hs : strStartsWith rp base
      · simp only [escLinksOf, if_pos hs, List.nil_append] at h
        simp only [noEscapeB, Bool.and_eq_true]
        exact ⟨hs, noEscape_of_escLinks_nil base rest p h⟩
      · simp only [escLinksOf, if_neg hs, List.singleton_append] at h
        exact absurd h (List.cons_ne_nil _ _)
  | (n, Ent.other) :: rest => by
      intro p h
      simp only [escLinksOf] at h
      simp only [noEscapeB]
      exact noEscape_of_escLinks_nil base rest p h

/-- When a listing contains an escaping symbolic link, the walker fails with
the traversal message naming the first such link in walk order. -/
theorem walk_escape (env : Env) (base : String) :
    ∀ (es : List (String × Ent)) (p q : String) (qs : List String),
      wfB es = true → escLinksOf base p es = q :: qs →
      walk env base (dirAt base p) es = Except.error (travMsg base q)
  | [] => by intro p q qs _ h; simp [escLinksOf] at h
  | (n, Ent.file c) :: rest => by
      intro p q qs hwf h
      simp only [escLinksOf] at h
      have hrest := walk_escape env base rest p q qs (wfB_cons hwf).2.2 h
      simp only [walk, hrest, bind, Except.bind]
  | (n, Ent.dir sub) :: rest => by
      intro p q qs hwf h
      have hn := (validNameB_spec (wfB_cons hwf).1).1
      simp only [escLinksOf] at h
      cases hsub : escLinksOf base (relAt p n) sub with
      | nil =>
          rw [hsub, List.nil_append] at h
          have hnes : noEscapeB base sub = true :=
            noEscape_of_escLinks_nil base sub (relAt p n) hsub
          have hok := walk_listing env base (relAt p n) sub (wfB_dir hwf) hnes
          rw [dirAt_relAt base p n hn] at hok
          have hrest := walk_escape env base rest p q qs (wfB_cons hwf).2.2 h
          simp only [walk, hok, hrest, bind, Except.bind]
      | cons q' qs' =>
          rw [hsub] at h
          simp only [List.cons_append, List.cons.injEq] at h
          have hsubw := walk_escape env base sub (relAt p n) q' qs' (wfB_dir hwf) hsub
          rw [dirAt_relAt base p n hn] at hsubw
          simp only [walk, hsubw, bind, Except.bind]
          rw [h.1]
  | (n, Ent.symlink rp) :: rest => by
      intro p q qs hwf h
      simp only [escLinksOf] at h
      by_cases hs : strStartsWith rp base
      · rw [if_pos hs, List.nil_append] at h
        have hrest := walk_escape env base rest p q qs (wfB_cons hwf).2.2 h
        simp only [walk, hs, if_pos, hrest, bind, Except.bind]
      · rw [if_neg hs, List.singleton_append] at h
        simp only [List.cons.injEq] at h
        simp only [walk, hs, Bool.false_eq_true, if_neg, if_false]
        rw [walk_rel_eq base p n, h.1]
  | (n, Ent.other) :: rest => by
      intro p q qs hwf h
      simp only [escLinksOf] at h
      simp only [walk]
      exact walk_escape env base rest p q qs (wfB_cons hwf).2.2 h

/-- C2: a symbolic link whose canonical target lies outside the base
directory, at any traversal depth, makes `walk` fail with the traversal
error naming the (first) offending link's relative path and the base
directory; the failure propagates, `buildManifest` never returns a manifest,
and `sign` performs no file write. -/
theorem c2_escape_aborts (env : Env) (dir : String) (es : List (String × Ent))
    (q : String) (qs : List String)
    (htree : env.dirTree dir = some es)
    (hwf : wfB es = true)
    (hesc : escLinksOf dir "" es = q :: qs) :
    walk env dir dir es = Except.error (travMsg dir q) ∧
    (∀ m, buildManifest env dir ≠ Except.ok m) ∧
    (dir = pathResolve env.cwd "dist" → ∀ s u,
      (sign env s u).writes = [] ∧ (sign env s u).errorReported.isSome = true) := by
  have hw : walk env dir dir es = Except.error (travMsg dir q) := by
    have h := walk_escape env dir es "" q qs hwf hesc
    simpa [dirAt] using h
  have hnotok : ∀ m, buildManifest env dir ≠ Except.ok m := by
    intro m hm
    obtain ⟨bs, pj, infov, es', paths, hbs, hpj, hid, hinfo, hver, hes, hpaths, hfiles,
      hst, hru, hsp⟩ := buildManifest_ok_elim hm
    rw [htree] at hes
    injection hes with hes
    subst hes
    rw [hw] at hpaths
    simp at hpaths
  refine ⟨hw, hnotok, ?_⟩
  intro hdir s u
  cases hb : buildManifest env (pathResolve env.cwd "dist") with
  | ok m => exact absurd (hdir ▸ hb) (hnotok m)
  | error e => simp [sign, signPipeline, hb]

theorem c2_escape_aborts_witness :
    walk envC "/work/dist" "/work/dist" treeC =
      Except.error (travMsg "/work/dist" "sub/evil") ∧
    (∀ m, buildManifest envC "/work/dist" ≠ Except.ok m) ∧
    ("/work/dist" = pathResolve envC.cwd "dist" → ∀ s u,
      (sign envC s u).writes = [] ∧ (sign envC s u).errorReported.isSome = true) :=
  c2_escape_aborts envC "/work/dist" treeC "sub/evil" [] rfl
    (by simp [wfB, treeC, validNameB])
    (by
      have hfalse : strStartsWith "/etc/passwd" "/work/dist" = false := rfl
      simp only [escLinksOf, treeC, hfalse, Bool.false_eq_true, if_false,
        List.singleton_append, List.nil_append, List.append_nil, relAt,
        if_pos, if_neg]
      simp [relAt])

/-- C9: the walker's escape check is a plain string-prefix test on the
canonical target: any symbolic link whose realpath has the base directory as
a string prefix raises no error, and when the target is a regular file the
walk yields the link's own relative path.  This includes targets inside a
sibling directory whose name merely begins with the base directory's path. -/
theorem c9_prefix_check_permissive (env : Env) (base name rp : String)
    (h1 : strStartsWith rp base = true)
    (h2 : env.statAbs rp = StatKind.file) :
    walk env base base [(name, Ent.symlink rp)] = Except.ok [name] := by
  have h3 : posixRelative base (posixJoin base name) = name := posixRelative_join base name
  simp [walk, h1, h2, bind, Except.bind, h3]

theorem c9_prefix_check_permissive_witness :
    strStartsWith "/work/dist-evil/f" "/work/dist" = true ∧
    walk envD "/work/dist" "/work/dist" [("lnk", Ent.symlink "/work/dist-evil/f")] =
      Except.ok ["lnk"] :=
  ⟨rfl, c9_prefix_check_permissive envD "/work/dist" "lnk" "/work/dist-evil/f" rfl rfl⟩

/-- C5: whenever `sign` reports an error — any failing stage: descriptor,
traversal, hashing, credentials, or the signing response — no file write is
performed, so a pre-existing `MANIFEST.txt` (and every other file) is left
exactly as it was: applying the (empty) write trace changes no file. -/
theorem c5_failure_writes_nothing (env : Env) (s : Option String)
    (u : Option (List String)) (e : String)
    (h : (sign env s u).errorReported = some e) :
    (sign env s u).writes = [] ∧
    ∀ fm : String → Option String, applyWrites fm (sign env s u).writes = fm := by
  cases hsp : signPipeline env s u with
  | mk req res =>
      cases res with
      | error e2 =>
          constructor
          · simp [sign, hsp]
          · intro fm
            simp [sign, hsp, applyWrites]
      | ok signed =>
          exfalso
          simp [sign, hsp] at h

theorem c5_failure_writes_nothing_witness :
    (sign envI none none).writes = [] ∧
    ∀ fm : String → Option String, applyWrites fm (sign envI none none).writes = fm :=
  c5_failure_writes_nothing envI none none
    "ENOENT: no such file or directory, open /work/dist/plugin.json" rfl

/-- C8: whenever `sign` issues a signing request, the payload's `signPlugin`
provenance field (the spec's `toolkitVersion` tag) has been set to the fixed
constant `{ version := "eccentric" }`, for every invocation and independently
of the caller-supplied overrides. -/
theorem c8_provenance_constant (env : Env) (s : Option String)
    (u : Option (List String)) (m : ManifestInfo)
    (h : (sign env s u).requested = some m) :
    m.signPlugin = some { version := "eccentric" } := by
  have hp : (signPipeline env s u).1 = some m := by
    cases hsp : signPipeline env s u with
    | mk req res => cases res <;> simpa [sign, hsp] using h
  unfold signPipeline at hp
  cases hb : buildManifest env (pathResolve env.cwd "dist") with
  | error e => rw [hb] at hp; simp at hp
  | ok manifest =>
      rw [hb] at hp
      simp only [signManifest] at hp
      by_cases hc : (!truthyStr env.apiKey && !truthyStr env.accessPolicyToken) = true
      · rw [if_pos hc] at hp
        simp at hp
      · rw [if_neg hc] at hp
        simp only [Option.some.injEq] at hp
        rw [← hp]

theorem c8_provenance_constant_witness :
    mK.signPlugin = some { version := "eccentric" } :=
  c8_provenance_constant envK none none mK
    (by
      have hwalk : walk envK "/work/dist" "/work/dist" [] = Except.ok [] := by
        simp [walk]
      have hb : buildManifest envK "/work/dist" = Except.ok mB :=
        @buildManifest_eval envK "/work/dist" [] pjGood [] [] [] rfl rfl
          (fun h => JVal.noConfusion h) (fun h => JVal.noConfusion h)
          (fun h => JVal.noConfusion h) (fun h => JVal.noConfusion h)
          rfl hwalk rfl
      have hroot : pathResolve envK.cwd "dist" = "/work/dist" := rfl
      simp only [sign, signPipeline, hroot, hb, signManifest]
      rfl)

/-! ## Locality of the pipeline in the content root -/

theorem strStartsWith_posixJoin (dir p : String) :
    strStartsWith (posixJoin dir p) dir = true := by
  unfold strStartsWith
  rw [List.isPrefixOf_iff_prefix, data_posixJoin, List.append_assoc]
  exact List.prefix_append dir.data (['/'] ++ p.data)

theorem walk_congr (env env' : Env) (base : String)
    (hstat : ∀ t, strStartsWith t base = true → env'.statAbs t = env.statAbs t) :
    ∀ (es : List (String × Ent)) (dir : String),
      walk env' base dir es = walk env base dir es
  | [] => by intro dir; simp [walk]
  | (n, Ent.dir sub) :: rest => by
      intro dir
      simp only [walk]
      rw [walk_congr env env' base hstat sub (posixJoin dir n),
        walk_congr env env' base hstat rest dir]
  | (n, Ent.file c) :: rest => by
      intro dir
      simp only [walk]
      rw [walk_congr env env' base hstat rest dir]
  | (n, Ent.symlink rp) :: rest => by
      intro dir
      simp only [walk]
      by_cases hs : strStartsWith rp base
      · rw [if_pos hs, if_pos hs, walk_congr env env' base hstat rest dir,
          hstat rp hs]
      · rw [if_neg hs, if_neg hs]
  | (n, Ent.other) :: rest => by
      intro dir
      simp only [walk]
      exact walk_congr env env' base hstat rest dir

theorem hashFiles_congr (env env' : Env) (dir : String)
    (hread : ∀ t, strStartsWith t dir = true → env'.readAbs t = env.readAbs t) :
    ∀ (ps : List String) (acc : List (String × String)),
      hashFiles env' dir ps acc = hashFiles env dir ps acc := by
  intro ps
  induction ps with
  | nil => intro acc; rfl
  | cons p ps ih =>
      intro acc
      by_cases hm : p = MANIFEST_FILE
      · simp only [hashFiles, if_pos hm]
        exact ih acc
      · simp only [hashFiles, if_neg hm,
          hread (posixJoin dir p) (strStartsWith_posixJoin dir p)]
        cases env.readAbs (posixJoin dir p) with
        | none => rfl
        | some bytes => exact ih (recordSet acc p (sha256hex bytes))

theorem buildManifest_congr (env env' : Env) (dir : String)
    (htree : env'.dirTree dir = env.dirTree dir)
    (hread : ∀ t, strStartsWith t dir = true → env'.readAbs t = env.readAbs t)
    (hstat : ∀ t, strStartsWith t dir = true → env'.statAbs t = env.statAbs t)
    (hparse : env'.parseJson = env.parseJson) :
    buildManifest env' dir = buildManifest env dir := by
  have hwfun : walk env' dir = walk env dir := by
    funext d es
    exact walk_congr env env' dir hstat es d
  have hhfun : hashFiles env' dir = hashFiles env dir := by
    funext ps acc
    exact hashFiles_congr env env' dir hread ps acc
  unfold buildManifest readFileExcept opendirExcept
  rw [hread (posixJoin dir "plugin.json") (strStartsWith_posixJoin dir "plugin.json"),
    htree, hparse, hwfun, hhfun]

theorem signManifest_congr (env env' : Env)
    (hkey : env'.apiKey = env.apiKey)
    (htok : env'.accessPolicyToken = env.accessPolicyToken)
    (hresp : env'.respond = env.respond) :
    signManifest env' = signManifest env := by
  funext m
  unfold signManifest
  rw [hkey, htok, hresp]

/-- C10: the content root of every `sign` invocation is the fixed directory
`dist` resolved against the working directory.  Every file write lands at
`MANIFEST.txt` under that root, and the whole outcome of `sign` depends on
the filesystem only through that root — an environment agreeing with `env`
at the resolved `dist` root (and on the non-filesystem collaborators)
produces the identical outcome, whatever the parameters. -/
theorem c10_root_fixed (env env' : Env)
    (hcwd : env'.cwd = env.cwd)
    (htree : env'.dirTree (pathResolve env.cwd "dist") =
      env.dirTree (pathResolve env.cwd "dist"))
    (hread : ∀ t, strStartsWith t (pathResolve env.cwd "dist") = true →
      env'.readAbs t = env.readAbs t)
    (hstat : ∀ t, strStartsWith t (pathResolve env.cwd "dist") = true →
      env'.statAbs t = env.statAbs t)
    (hparse : env'.parseJson = env.parseJson)
    (hkey : env'.apiKey = env.apiKey)
    (htok : env'.accessPolicyToken = env.accessPolicyToken)
    (hresp : env'.respond = env.respond) :
    (∀ s u p c, (p, c) ∈ (sign env s u).writes →
      p = posixJoin (pathResolve env.cwd "dist") MANIFEST_FILE) ∧
    (∀ s u, sign env' s u = sign env s u) := by
  constructor
  · intro s u p c hmem
    cases hsp : signPipeline env s u with
    | mk req res =>
        cases res with
        | error e => simp [sign, hsp] at hmem
        | ok signed =>
            simp only [sign, hsp, List.mem_singleton] at hmem
            exact congrArg Prod.fst hmem
  · intro s u
    have hb : buildManifest env' (pathResolve env.cwd "dist") =
        buildManifest env (pathResolve env.cwd "dist") :=
      buildManifest_congr env env' (pathResolve env.cwd "dist")
        htree hread hstat hparse
    have hsm := signManifest_congr env env' hkey htok hresp
    unfold sign signPipeline
    rw [hcwd, hb, hsm]

theorem c10_root_fixed_witness :
    (∀ s u p c, (p, c) ∈ (sign envK s u).writes →
      p = posixJoin (pathResolve envK.cwd "dist") MANIFEST_FILE) ∧
    (∀ s u, sign envK s u = sign envK s u) :=
  c10_root_fixed envK envK rfl rfl (fun _ _ => rfl) (fun _ _ => rfl) rfl rfl rfl rfl

/-- C7: manifest construction is insensitive to the order in which the
underlying directory enumeration yields entries: two builds over the same
files whose walks yield the same paths in any order produce `files` tables
that are permutations of each other — the same set of key-digest pairs. -/
theorem c7_order_independent (env env' : Env) (dir : String)
    (t t' : List (String × Ent)) (ps ps' : List String) (m m' : ManifestInfo)
    (hread : env'.readAbs = env.readAbs)
    (htree : env.dirTree dir = some t) (htree' : env'.dirTree dir = some t')
    (hw : walk env dir dir t = Except.ok ps)
    (hw' : walk env' dir dir t' = Except.ok ps')
    (hperm : ps.Perm ps') (hnd : ps.Nodup)
    (hb : buildManifest env dir = Except.ok m)
    (hb' : buildManifest env' dir = Except.ok m') :
    m.files.Perm m'.files ∧ ∀ kv, kv ∈ m.files ↔ kv ∈ m'.files := by
  obtain ⟨bs1, pj1, iv1, es1, paths1, hbs1, hpj1, hid1, hinfo1, hver1, hes1, hpaths1,
    hfiles1, h1a, h1b, h1c⟩ := buildManifest_ok_elim hb
  obtain ⟨bs2, pj2, iv2, es2, paths2, hbs2, hpj2, hid2, hinfo2, hver2, hes2, hpaths2,
    hfiles2, h2a, h2b, h2c⟩ := buildManifest_ok_elim hb'
  rw [htree] at hes1
  injection hes1 with he1
  subst he1
  rw [htree'] at hes2
  injection hes2 with he2
  subst he2
  rw [hw] at hpaths1
  injection hpaths1 with hp1
  subst hp1
  rw [hw'] at hpaths2
  injection hpaths2 with hp2
  subst hp2
  have hnd' : ps'.Nodup := (hperm.nodup_iff).mp hnd
  obtain ⟨l1, hc1, hf1⟩ := hashFiles_collect env dir ps [] m.files hnd (by simp) hfiles1
  obtain ⟨l2, hc2, hf2⟩ := hashFiles_collect env' dir ps' [] m'.files hnd' (by simp) hfiles2
  simp only [List.nil_append] at hf1 hf2
  have he1 := collect_eq_filterMap env dir ps l1 hc1
  have he2 := collect_eq_filterMap env' dir ps' l2 hc2
  have hfn : hashFn env' dir = hashFn env dir := by
    funext p
    simp [hashFn, hread]
  rw [hfn] at he2
  constructor
  · rw [hf1, hf2, he1, he2]
    exact hperm.filterMap _
  · intro kv
    rw [hf1, hf2, he1, he2]
    exact (hperm.filterMap _).mem_iff

theorem c7_order_independent_witness :
    mJ1.files.Perm mJ2.files ∧ ∀ kv, kv ∈ mJ1.files ↔ kv ∈ mJ2.files := by
  have hw1 : walk envJ1 "/work/dist" "/work/dist" treeJ1 =
      Except.ok ["a.txt", "b.txt"] := by
    simp [walk, treeJ1, bind, Except.bind, posixRelative_join]
  have hw2 : walk envJ2 "/work/dist" "/work/dist" treeJ2 =
      Except.ok ["b.txt", "a.txt"] := by
    simp [walk, treeJ2, bind, Except.bind, posixRelative_join]
  exact c7_order_independent envJ1 envJ2 "/work/dist" treeJ1 treeJ2
    ["a.txt", "b.txt"] ["b.txt", "a.txt"] mJ1 mJ2
    rfl rfl rfl hw1 hw2 (by decide) (by decide)
    (@buildManifest_eval envJ1 "/work/dist" [] pjGood treeJ1 ["a.txt", "b.txt"]
      mJ1.files rfl rfl
      (fun h => JVal.noConfusion h) (fun h => JVal.noConfusion h)
      (fun h => JVal.noConfusion h) (fun h => JVal.noConfusion h)
      rfl hw1 rfl)
    (@buildManifest_eval envJ2 "/work/dist" [] pjGood treeJ2 ["b.txt", "a.txt"]
      mJ2.files rfl rfl
      (fun h => JVal.noConfusion h) (fun h => JVal.noConfusion h)
      (fun h => JVal.noConfusion h) (fun h => JVal.noConfusion h)
      rfl hw2 rfl)

/-! ## Locating an entry in the listing -/

theorem mem_listing_cons (env : Env) (base : String) (k : String) (e : Ent)
    (rest : List (String × Ent)) {cs : List String}
    (h : cs ∈ listingPaths env base rest) :
    cs ∈ listingPaths env base ((k, e) :: rest) := by
  cases e with
  | file c =>
      simp only [listingPaths]
      exact List.mem_cons_of_mem _ h
  | dir sub =>
      simp only [listingPaths]
      exact List.mem_append_right _ h
  | symlink rp =>
      simp only [listingPaths]
      exact List.mem_append_right _ h
  | other =>
      simp only [listingPaths]
      exact h

theorem lookup_symlink_mem (env : Env) (base : String) {rp : String}
    (hstat : env.statAbs rp = StatKind.file) :
    ∀ (es : List (String × Ent)) (n : String), noEscapeB base es = true →
      es.lookup n = some (Ent.symlink rp) → [n] ∈ listingPaths env base es := by
  intro es
  induction es with
  | nil => intro n _ h; simp at h
  | cons ke rest ih =>
      intro n hne h
      obtain ⟨k, e⟩ := ke
      by_cases hk : (n == k) = true
      · have h2 : some e = some (Ent.symlink rp) := by
          rw [List.lookup_cons, hk] at h
          exact h
        injection h2 with h2
        subst h2
        have hkn : k = n := (beq_iff_eq.mp hk).symm
        subst hkn
        simp only [listingPaths, noEscapeB_symlink hne, if_pos, hstat,
          List.singleton_append]
        exact List.mem_cons_self _ _
      · have hkf : (n == k) = false := by simpa using hk
        have h2 : List.lookup n rest = some (Ent.symlink rp) := by
          rw [List.lookup_cons, hkf] at h
          exact h
        have hne' : noEscapeB base rest = true := noEscapeB_cons hne
        exact mem_listing_cons env base k e rest (ih n hne' h2)

theorem lookup_dir_wf : ∀ (es : List (String × Ent)) (n : String)
    (sub : List (String × Ent)), wfB es = true →
    es.lookup n = some (Ent.dir sub) → wfB sub = true := by
  intro es
  induction es with
  | nil => intro n sub _ h; simp at h
  | cons ke rest ih =>
      intro n sub hwf h
      obtain ⟨k, e⟩ := ke
      by_cases hk : (n == k) = true
      · have h2 : some e = some (Ent.dir sub) := by
          rw [List.lookup_cons, hk] at h
          exact h
        injection h2 with h2
        subst h2
        exact wfB_dir hwf
      · have hkf : (n == k) = false := by simpa using hk
        have h2 : List.lookup n rest = some (Ent.dir sub) := by
          rw [List.lookup_cons, hkf] at h
          exact h
        exact ih n sub (wfB_cons hwf).2.2 h2

theorem lookup_dir_noEscape (base : String) : ∀ (es : List (String × Ent))
    (n : String) (sub : List (String × Ent)), noEscapeB base es = true →
    es.lookup n = some (Ent.dir sub) → noEscapeB base sub = true := by
  intro es
  induction es with
  | nil => intro n sub _ h; simp at h
  | cons ke rest ih =>
      intro n sub hne h
      obtain ⟨k, e⟩ := ke
      by_cases hk : (n == k) = true
      · have h2 : some e = some (Ent.dir sub) := by
          rw [List.lookup_cons, hk] at h
          exact h
        injection h2 with h2
        subst h2
        exact noEscapeB_dir hne
      · have hkf : (n == k) = false := by simpa using hk
        have h2 : List.lookup n rest = some (Ent.dir sub) := by
          rw [List.lookup_cons, hkf] at h
          exact h
        exact ih n sub (noEscapeB_cons hne) h2

theorem lookup_dir_mem_listing (env : Env) (base : String) :
    ∀ (es : List (String × Ent)) (n : String) (sub : List (String × Ent))
      (cs : List String), es.lookup n = some (Ent.dir sub) →
      cs ∈ listingPaths env base sub → (n :: cs) ∈ listingPaths env base es := by
  intro es
  induction es with
  | nil => intro n sub cs h _; simp at h
  | cons ke rest ih =>
      intro n sub cs h hmem
      obtain ⟨k, e⟩ := ke
      by_cases hk : (n == k) = true
      · have h2 : some e = some (Ent.dir sub) := by
          rw [List.lookup_cons, hk] at h
          exact h
        injection h2 with h2
        subst h2
        have hkn : k = n := (beq_iff_eq.mp hk).symm
        subst hkn
        simp only [listingPaths, List.mem_append, List.mem_map]
        exact Or.inl ⟨cs, hmem, rfl⟩
      · have hkf : (n == k) = false := by simpa using hk
        have h2 : List.lookup n rest = some (Ent.dir sub) := by
          rw [List.lookup_cons, hkf] at h
          exact h
        exact mem_listing_cons env base k e rest (ih n sub cs h2 hmem)

theorem entAt_symlink_mem (env : Env) (base : String) (rp : String)
    (hstat : env.statAbs rp = StatKind.file) :
    ∀ (cs : List String) (es : List (String × Ent)), wfB es = true →
      noEscapeB base es = true → entAt es cs = some (Ent.symlink rp) →
      cs ∈ listingPaths env base es := by
  intro cs
  induction cs with
  | nil => intro es _ _ h; simp [entAt] at h
  | cons n rest ih =>
      intro es hwf hne h
      cases rest with
      | nil =>
          simp only [entAt] at h
          exact lookup_symlink_mem env base hstat es n hne h
      | cons r rs =>
          simp only [entAt] at h
          cases hl : es.lookup n with
          | none => rw [hl] at h; simp at h
          | some e =>
              rw [hl] at h
              cases e with
              | dir sub =>
                  exact lookup_dir_mem_listing env base es n sub (r :: rs) hl
                    (ih sub (lookup_dir_wf es n sub hwf hl)
                      (lookup_dir_noEscape base es n sub hne hl) h)
              | file c => simp at h
              | symlink rp2 => simp at h
              | other => simp at h

/-! ## Counting keys coming out of the hashing loop -/

theorem collect_reads (env : Env) (dir : String) :
    ∀ (ps : List String) (l : List (String × String)),
      collectHashes env dir ps = some l →
      ∀ p ∈ ps, p = MANIFEST_FILE ∨ (env.readAbs (posixJoin dir p)).isSome = true := by
  intro ps
  induction ps with
  | nil => intro l _ p hp; simp at hp
  | cons p0 ps ih =>
      intro l h p hp
      by_cases hm : p0 = MANIFEST_FILE
      · rw [hm] at h
        simp only [collectHashes, if_pos rfl] at h
        rcases List.mem_cons.mp hp with he | he
        · left; rw [he, hm]
        · exact ih l h p he
      · simp only [collectHashes, if_neg hm] at h
        cases hr : env.readAbs (posixJoin dir p0) with
        | none => rw [hr] at h; simp at h
        | some bytes =>
            rw [hr] at h
            cases hc : collectHashes env dir ps with
            | none => rw [hc] at h; simp [Option.map] at h
            | some l2 =>
                rcases List.mem_cons.mp hp with he | he
                · right; rw [he, hr]; rfl
                · exact ih l2 hc p he

theorem countP_key_filterMap (env : Env) (dir q : String) (hq : q ≠ MANIFEST_FILE) :
    ∀ ps : List String,
      (∀ p ∈ ps, p = MANIFEST_FILE ∨ (env.readAbs (posixJoin dir p)).isSome = true) →
      (ps.filterMap (hashFn env dir)).countP (fun kv => kv.1 = q) = ps.count q := by
  intro ps
  induction ps with
  | nil => intro _; simp
  | cons p ps ih =>
      intro hr
      have hrest := ih (fun x hx => hr x (List.mem_cons_of_mem _ hx))
      by_cases hm : p = MANIFEST_FILE
      · simp only [List.filterMap_cons, hashFn, if_pos hm]
        have hpq : ¬ (p = q) := by
          rw [hm]
          exact fun hh => hq hh.symm
        rw [hrest, List.count_cons]
        simp [hpq]
      · rcases hr p (List.mem_cons_self p ps) with h | h
        · exact absurd h hm
        · cases hread : env.readAbs (posixJoin dir p) with
          | none => rw [hread] at h; simp at h
          | some bytes =>
              simp only [List.filterMap_cons, hashFn, if_neg hm, hread, Option.map]
              rw [List.countP_cons, List.count_cons, hrest]
              by_cases hpq : p = q <;> simp [hpq]

/-- C3 counterexample: a symbolic link named exactly `MANIFEST.txt` whose
canonical target is a regular file inside the base directory.  The walk
yields the link's relative path, but `buildManifest` skips it (the reserved
output filename is filtered before hashing), so the returned manifest stores
no entry keyed by the link's relative path — the claim's "exactly one entry"
fails at this input. -/
theorem c3_reserved_name_counterexample :
    entAt treeE ["MANIFEST.txt"] = some (Ent.symlink "/work/dist/real.txt") ∧
    strStartsWith "/work/dist/real.txt" "/work/dist" = true ∧
    envE.statAbs "/work/dist/real.txt" = StatKind.file ∧
    buildManifest envE "/work/dist" = Except.ok mE ∧
    mE.files.countP (fun kv => kv.1 = "MANIFEST.txt") = 0 := by
  refine ⟨rfl, rfl, rfl, ?_, by decide⟩
  have hs : strStartsWith "/work/dist/real.txt" "/work/dist" = true := rfl
  have hst : envE.statAbs "/work/dist/real.txt" = StatKind.file := rfl
  have hwalk : walk envE "/work/dist" "/work/dist" treeE =
      Except.ok ["real.txt", "MANIFEST.txt"] := by
    simp [walk, treeE, bind, Except.bind, posixRelative_join, hs, hst]
  exact @buildManifest_eval envE "/work/dist" [] pjGood treeE
    ["real.txt", "MANIFEST.txt"] mE.files rfl rfl
    (fun h => JVal.noConfusion h) (fun h => JVal.noConfusion h)
    (fun h => JVal.noConfusion h) (fun h => JVal.noConfusion h)
    rfl hwalk rfl

/-- C3 (amended): a symbolic link whose canonical target lies inside the
base directory and is a regular file, and whose own relative path is not the
reserved output filename, is yielded exactly once by the walk — under the
link's own relative path, not the target's — and a successful
`buildManifest` stores exactly one `files` entry under that key.  (The
amendment excludes a link whose relative path equals the reserved output
filename `MANIFEST.txt`: `buildManifest` skips that key, storing no entry,
as the counterexample shows.) -/
theorem c3_symlink_single_entry (env : Env) (dir : String) (es : List (String × Ent))
    (cs : List String) (rp : String) (m : ManifestInfo)
    (htree : env.dirTree dir = some es)
    (hwf : wfB es = true)
    (hne : noEscapeB dir es = true)
    (hlink : entAt es cs = some (Ent.symlink rp))
    (hstat : env.statAbs rp = StatKind.file)
    (hnm : renderPath cs ≠ MANIFEST_FILE)
    (hb : buildManifest env dir = Except.ok m) :
    (∃ ps, walk env dir dir es = Except.ok ps ∧ ps.count (renderPath cs) = 1) ∧
    m.files.countP (fun kv => kv.1 = renderPath cs) = 1 := by
  have hmem : cs ∈ listingPaths env dir es :=
    entAt_symlink_mem env dir rp hstat cs es hwf hne hlink
  have hmem2 : renderPath cs ∈ (listingPaths env dir es).map renderPath :=
    List.mem_map_of_mem renderPath hmem
  have hndr := listing_render_nodup env dir es hwf
  have hcount : ((listingPaths env dir es).map renderPath).count (renderPath cs) = 1 :=
    List.count_eq_one_of_mem hndr hmem2
  have hwalk := walk_at_base env dir es hwf hne
  obtain ⟨bs, pj, infov, es', paths, hbs, hpj, hid, hinfo, hver, hes, hpaths, hfiles,
    hst, hru, hsp⟩ := buildManifest_ok_elim hb
  rw [htree] at hes
  injection hes with hes
  subst hes
  rw [hwalk] at hpaths
  injection hpaths with hpq
  have hnd : paths.Nodup := by rw [hpq] at hndr; exact hndr
  constructor
  · exact ⟨paths, by rw [hwalk, hpq], by rw [← hpq]; exact hcount⟩
  · obtain ⟨l, hc, hf⟩ := hashFiles_collect env dir paths [] m.files hnd
      (by simp) hfiles
    simp only [List.nil_append] at hf
    have he := collect_eq_filterMap env dir paths l hc
    have hreads := collect_reads env dir paths l hc
    rw [hf, he, countP_key_filterMap env dir (renderPath cs) hnm paths hreads,
      ← hpq]
    exact hcount

theorem c3_symlink_single_entry_witness :
    (∃ ps, walk envF "/work/dist" "/work/dist" treeF = Except.ok ps ∧
      ps.count (renderPath ["link.txt"]) = 1) ∧
    mF.files.countP (fun kv => kv.1 = renderPath ["link.txt"]) = 1 := by
  have hs : strStartsWith "/work/dist/data.bin" "/work/dist" = true := rfl
  have hst : envF.statAbs "/work/dist/data.bin" = StatKind.file := rfl
  have hwalk : walk envF "/work/dist" "/work/dist" treeF =
      Except.ok ["data.bin", "link.txt"] := by
    simp [walk, treeF, bind, Except.bind, posixRelative_join, hs, hst]
  exact c3_symlink_single_entry envF "/work/dist" treeF ["link.txt"]
    "/work/dist/data.bin" mF rfl
    (by simp [wfB, treeF, validNameB])
    (by simp [noEscapeB, treeF, hs])
    rfl
    rfl
    (by decide)
    (@buildManifest_eval envF "/work/dist" [] pjGood treeF
      ["data.bin", "link.txt"] mF.files rfl rfl
      (fun h => JVal.noConfusion h) (fun h => JVal.noConfusion h)
      (fun h => JVal.noConfusion h) (fun h => JVal.noConfusion h)
      rfl hwalk rfl)

/-! ## Descriptor failure modes -/

theorem jGet_ok_elim {v : JVal} {k : String} {w : JVal}
    (h : jGet v k = Except.ok w) : w = jIndex v k := by
  cases v
  case null => simp [jGet] at h
  case undefined => simp [jGet] at h
  all_goals (injection h with h; exact h.symm)

/-- C6 counterexample: a readable, well-formed-JSON descriptor `plugin.json`
with the object value `{"info":{}}` — the required `id` is absent, and
`info.version` is absent within a present `info`.  `buildManifest` does not
fail: it returns a manifest recording `undefined` for both fields, refuting
the claim that a missing required field makes the build fail with a
descriptor error. -/
theorem c6_missing_fields_counterexample :
    envG.parseJson [] = Except.ok (JVal.obj [("info", JVal.obj [])]) ∧
    jIndex (JVal.obj [("info", JVal.obj [])]) "id" = JVal.undefined ∧
    jIndex (jIndex (JVal.obj [("info", JVal.obj [])]) "info") "version" =
      JVal.undefined ∧
    buildManifest envG "/work/dist" = Except.ok mG := by
  refine ⟨rfl, rfl, rfl, ?_⟩
  have hwalk : walk envG "/work/dist" "/work/dist" [] = Except.ok [] := by
    simp [walk]
  exact @buildManifest_eval envG "/work/dist" [] (JVal.obj [("info", JVal.obj [])])
    [] [] [] rfl rfl
    (fun h => JVal.noConfusion h) (fun h => JVal.noConfusion h)
    (fun h => JVal.noConfusion h) (fun h => JVal.noConfusion h)
    rfl hwalk rfl

/-- C6 (amended): `buildManifest` fails when the descriptor is missing or
unreadable, when it is not valid structured data, or when `info` is absent
(the `info.version` access throws a `TypeError`); but an absent `id`, or an
absent `version` within a present non-null `info`, causes no failure — the
manifest simply records the descriptor's (possibly `undefined`) member
values verbatim, substituting no default. -/
theorem c6_descriptor_failures (env : Env) (dir : String) :
    (env.readAbs (posixJoin dir "plugin.json") = none →
      ∃ e, buildManifest env dir = Except.error e) ∧
    (∀ bs pe, env.readAbs (posixJoin dir "plugin.json") = some bs →
      env.parseJson bs = Except.error pe →
      buildManifest env dir = Except.error pe) ∧
    (∀ bs pj, env.readAbs (posixJoin dir "plugin.json") = some bs →
      env.parseJson bs = Except.ok pj → pj ≠ JVal.null → pj ≠ JVal.undefined →
      jIndex pj "info" = JVal.undefined →
      ∃ e, buildManifest env dir = Except.error e) ∧
    (∀ m, buildManifest env dir = Except.ok m →
      ∃ bs pj, env.readAbs (posixJoin dir "plugin.json") = some bs ∧
        env.parseJson bs = Except.ok pj ∧
        m.plugin = jIndex pj "id" ∧
        m.version = jIndex (jIndex pj "info") "version") := by
  refine ⟨?_, ?_, ?_, ?_⟩
  · intro h
    refine ⟨"ENOENT: no such file or directory, open " ++ posixJoin dir "plugin.json", ?_⟩
    simp only [buildManifest, readFileExcept, h, bind, Except.bind]
  · intro bs pe h1 h2
    simp only [buildManifest, readFileExcept, h1, h2, bind, Except.bind]
  · intro bs pj h1 h2 h3 h4 h5
    refine ⟨"TypeError: cannot read properties of undefined (reading " ++
      "version" ++ ")", ?_⟩
    simp only [buildManifest, readFileExcept, h1, h2, jGet_ok "id" h3 h4,
      jGet_ok "info" h3 h4, h5, jGet, bind, Except.bind]
  · intro m hm
    obtain ⟨bs, pj, infov, es, paths, hbs, hpj, hid, hinfo, hver, hes, hpaths,
      hfiles, hst, hru, hsp⟩ := buildManifest_ok_elim hm
    refine ⟨bs, pj, hbs, hpj, (jGet_ok_elim hid).symm ▸ rfl, ?_⟩
    have h1 : infov = jIndex pj "info" := jGet_ok_elim hinfo
    have h2 : m.version = jIndex infov "version" := jGet_ok_elim hver
    rw [h2, h1]

theorem c6_descriptor_failures_witness :
    (∃ e, buildManifest env6a "/work/dist" = Except.error e) ∧
    buildManifest env6b "/work/dist" =
      Except.error "SyntaxError: Unexpected end of JSON input" ∧
    (∃ e, buildManifest env6c "/work/dist" = Except.error e) ∧
    (∃ bs pj, env6a.readAbs (posixJoin "/work/dist" "plugin.json") = none ∧
      envG.readAbs (posixJoin "/work/dist" "plugin.json") = some bs ∧
      envG.parseJson bs = Except.ok pj ∧
      mG.plugin = jIndex pj "id" ∧
      mG.version = jIndex (jIndex pj "info") "version") := by
  refine ⟨(c6_descriptor_failures env6a "/work/dist").1 rfl,
    (c6_descriptor_failures env6b "/work/dist").2.1 []
      "SyntaxError: Unexpected end of JSON input" rfl rfl,
    (c6_descriptor_failures env6c "/work/dist").2.2.1 []
      (JVal.obj [("id", JVal.str "x")]) rfl rfl
      (fun h => JVal.noConfusion h) (fun h => JVal.noConfusion h) rfl, ?_⟩
  have hwalk : walk envG "/work/dist" "/work/dist" [] = Except.ok [] := by
    simp [walk]
  have hbG : buildManifest envG "/work/dist" = Except.ok mG :=
    @buildManifest_eval envG "/work/dist" [] (JVal.obj [("info", JVal.obj [])])
      [] [] [] rfl rfl
      (fun h => JVal.noConfusion h) (fun h => JVal.noConfusion h)
      (fun h => JVal.noConfusion h) (fun h => JVal.noConfusion h)
      rfl hwalk rfl
  obtain ⟨bs, pj, h1, h2, h3, h4⟩ :=
    (c6_descriptor_failures envG "/work/dist").2.2.2 mG hbG
  exact ⟨bs, pj, rfl, h1, h2, h3, h4⟩
